import Mathlib

/-!
Verification of the BS (Gragg-Bulirsch-Stoer) integrator of
src/integrator_bs.c and of the MERCURANA integrator of
src/integrator_mercurana.c.

Modelling conventions.
C doubles are modelled as rationals (exact real arithmetic on a countable
field).  The math-library routines sqrt, pow and log10 used by the BS step
controller are abstract parameters, collected in MathFns: none of the
properties proved below depends on their values, so every theorem holds for
every instantiation, in particular for the real functions.  C arrays are
modelled as total functions from indices to values; every loop of the C
code writes only indices below the recorded length, and the embedded
updates carry the same index guards.  The derivatives callback of an ODE
is, per its contract, a pure function of the input vector and the time.
printf calls are I/O only and have no counterpart here.  exit() calls
(unsupported method, minimal/maximal stepsize reached) terminate the
process; functions that may reach one return an Option, with none for the
aborted executions.
-/

namespace BS

/-- Hard coded configuration parameters, integrator_bs.c lines 69-79. -/
def maxOrder : ℕ := 18

def sequence_length : ℕ := maxOrder / 2

def stepControl1 : ℚ := 0.65

def stepControl2 : ℚ := 0.94

def stepControl3 : ℚ := 0.02

def stepControl4 : ℚ := 4.0

def orderControl1 : ℚ := 0.8

def orderControl2 : ℚ := 0.9

def stabilityReduction : ℚ := 0.5

def maxIter : ℕ := 2

def maxChecks : ℕ := 1

/-- Model of struct reb_ode_state.  Buffers are total functions; length is
the number of live components.  derivatives is the user callback
(in_y, t) ↦ yDot, a pure function per the ODE contract; getscale is the
optional scaling callback (y_a, y_b) ↦ scale. -/
structure OdeState where
  length : ℕ
  y : ℕ → ℚ
  y1 : ℕ → ℚ
  y0Dot : ℕ → ℚ
  yDot : ℕ → ℚ
  yTmp : ℕ → ℚ
  C : ℕ → ℚ
  D : ℕ → ℕ → ℚ
  scale : ℕ → ℚ
  derivatives : (ℕ → ℚ) → ℚ → ℕ → ℚ
  getscale : Option ((ℕ → ℚ) → (ℕ → ℚ) → ℕ → ℚ)

/-- reb_integrator_bs_default_scale, lines 359-365:
scale[i] = absTol + relTol * max(|y1[i]|, |y2[i]|). -/
def reb_integrator_bs_default_scale (state : OdeState) (y1v y2v : ℕ → ℚ)
    (absTol relTol : ℚ) : OdeState :=
  { state with scale := fun i =>
      if i < state.length then absTol + relTol * max |y1v i| |y2v i|
      else state.scale i }

/-- Initial scale computation of reb_integrator_bs_step, lines 387-393.
Note the argument order at the call site of line 391: the default branch
passes scalRelativeTolerance into the absTol parameter and
scalAbsoluteTolerance into the relTol parameter. -/
def stepScaleInitial (scalRelativeTolerance scalAbsoluteTolerance : ℚ)
    (st : OdeState) : OdeState :=
  match st.getscale with
  | some g => { st with scale := g st.y st.y }
  | none => reb_integrator_bs_default_scale st st.y st.y
      scalRelativeTolerance scalAbsoluteTolerance

/-- Scale recomputation after an extrapolation, lines 438-442.  The
getscale branch passes (y, y1); the default branch passes (y, y) and the
same swapped tolerance order as the initial site. -/
def stepScaleAfterExtrapolate (scalRelativeTolerance scalAbsoluteTolerance : ℚ)
    (st : OdeState) : OdeState :=
  match st.getscale with
  | some g => { st with scale := g st.y st.y1 }
  | none => reb_integrator_bs_default_scale st st.y st.y
      scalRelativeTolerance scalAbsoluteTolerance

/-- One iteration (index j) of the sweep of extrapolate, lines 276-286.
C[i] and D[k-j-1][i] are both rewritten from their previous values via the
shared difference CD. -/
def extrapolateSweep (length : ℕ) (coeff : ℕ → ℚ) (k : ℕ)
    (CD : (ℕ → ℚ) × (ℕ → ℕ → ℚ)) (j : ℕ) : (ℕ → ℚ) × (ℕ → ℕ → ℚ) :=
  let xi := coeff (k - j - 1)
  let xim1 := coeff k
  let facC := xi / (xi - xim1)
  let facD := xim1 / (xi - xim1)
  let Cold := CD.1
  let Dold := CD.2
  ( fun i => if i < length then facC * (Cold i - Dold (k - j - 1) i) else Cold i,
    fun r i => if r = k - j - 1 ∧ i < length then facD * (Cold i - Dold r i)
      else Dold r i )

/-- State of the tableau sweep after the first j iterations. -/
def sweepIter (st : OdeState) (coeff : ℕ → ℚ) (k j : ℕ) :
    (ℕ → ℚ) × (ℕ → ℕ → ℚ) :=
  (List.range j).foldl (extrapolateSweep st.length coeff k) (st.C, st.D)

/-- extrapolate, lines 271-295: sweep the tableau for j = 0..k-1, then
accumulate y1[i] = D[0][i] + D[1][i] + ... + D[k][i] serially. -/
def extrapolate (st : OdeState) (coeff : ℕ → ℚ) (k : ℕ) : OdeState :=
  let swept := sweepIter st coeff k k
  let Dnew := swept.2
  let y1new : ℕ → ℚ := fun i =>
    if i < st.length then
      (List.range k).foldl (fun acc j => acc + Dnew (j + 1) i) (Dnew 0 i)
    else st.y1 i
  { st with C := swept.1, D := Dnew, y1 := y1new }

theorem foldl_add_shift (g : ℕ → ℚ) :
    ∀ k, (List.range k).foldl (fun acc j => acc + g (j + 1)) (g 0)
      = ∑ j in Finset.range (k + 1), g j := by
  intro k
  induction k with
  | zero => simp
  | succ k ih =>
      rw [List.range_succ, List.foldl_append, Finset.sum_range_succ, ih]
      simp

theorem sweepIter_succ (st : OdeState) (coeff : ℕ → ℚ) (k j : ℕ) :
    sweepIter st coeff k (j + 1)
      = extrapolateSweep st.length coeff k (sweepIter st coeff k j) j := by
  unfold sweepIter
  rw [List.range_succ, List.foldl_append]
  rfl

/-- C7: extrapolate performs, for j = 0..k-1 with xi = coeff[k-j-1] and
xim1 = coeff[k], the in-place updates CD = C[i] - D[k-j-1][i],
C[i] = (xi/(xi-xim1))*CD, D[k-j-1][i] = (xim1/(xi-xim1))*CD for every
component i < length (other rows untouched), and on exit y1[i] equals the
sum over j = 0..k of the post-sweep D[j][i]. -/
theorem C7_extrapolate_tableau (st : OdeState) (coeff : ℕ → ℚ) (k : ℕ) :
    (∀ i, i < st.length →
      (extrapolate st coeff k).y1 i
        = ∑ j in Finset.range (k + 1), (extrapolate st coeff k).D j i)
    ∧ ((extrapolate st coeff k).C = (sweepIter st coeff k k).1
        ∧ (extrapolate st coeff k).D = (sweepIter st coeff k k).2)
    ∧ (∀ j, j < k → ∀ i, i < st.length →
      (sweepIter st coeff k (j + 1)).1 i
        = coeff (k - j - 1) / (coeff (k - j - 1) - coeff k)
          * ((sweepIter st coeff k j).1 i - (sweepIter st coeff k j).2 (k - j - 1) i)
      ∧ (sweepIter st coeff k (j + 1)).2 (k - j - 1) i
        = coeff k / (coeff (k - j - 1) - coeff k)
          * ((sweepIter st coeff k j).1 i - (sweepIter st coeff k j).2 (k - j - 1) i)
      ∧ (∀ r, r ≠ k - j - 1 →
          (sweepIter st coeff k (j + 1)).2 r i = (sweepIter st coeff k j).2 r i)) := by
  refine ⟨?_, ⟨rfl, rfl⟩, ?_⟩
  · intro i hi
    show (if i < st.length then _ else _) = _
    rw [if_pos hi]
    exact foldl_add_shift (fun j => (sweepIter st coeff k k).2 j i) k
  · intro j _ i hi
    rw [sweepIter_succ]
    unfold extrapolateSweep
    refine ⟨by simp [hi], by simp [hi], ?_⟩
    intro r hr
    simp [hr]

/-- Concrete tableau used to witness C7. -/
def c7St : OdeState :=
  { length := 1
    y := fun _ => 0, y1 := fun _ => 0, y0Dot := fun _ => 0, yDot := fun _ => 0
    yTmp := fun _ => 0, C := fun _ => 5
    D := fun r _ => if r = 0 then 2 else if r = 1 then 3 else 0
    scale := fun _ => 1
    derivatives := fun _ _ _ => 0, getscale := none }

theorem C7_extrapolate_tableau_witness :
    0 < c7St.length
    ∧ (extrapolate c7St (fun j => 1 / ((j : ℚ) + 2)) 1).y1 0
        = ∑ j in Finset.range 2,
            (extrapolate c7St (fun j => 1 / ((j : ℚ) + 2)) 1).D j 0 :=
  ⟨by norm_num [c7St],
   (C7_extrapolate_tableau c7St (fun j => 1 / ((j : ℚ) + 2)) 1).1 0
     (by norm_num [c7St])⟩

/-- Concrete ODE state used to exhibit the default-scale argument swap:
one component, y = [2], y1 = [5], no getscale callback. -/
def c1St : OdeState :=
  { length := 1
    y := fun _ => 2, y1 := fun _ => 5, y0Dot := fun _ => 0, yDot := fun _ => 0
    yTmp := fun _ => 0, C := fun _ => 0, D := fun _ _ => 0, scale := fun _ => 0
    derivatives := fun _ _ _ => 0, getscale := none }

/-- C1: with scalAbsoluteTolerance = 2 and scalRelativeTolerance = 3, the
step function's default scale computation yields scale[0] = 3 + 2*|y[0]| = 7
at both sites (the call sites of lines 391 and 441 pass the relative
tolerance into the absTol parameter and vice versa, and the
post-extrapolation site passes y twice), while the claimed formula
scalAbsoluteTolerance + scalRelativeTolerance * max(|y_a|, |y_b|) gives 8
for the initial evaluation (y_a = y_b = y) and 17 for the re-evaluation
(y_a = y, y_b = y1).  The claim fails on the code at this input. -/
theorem C1_default_scale_call_swapped :
    (stepScaleInitial 3 2 c1St).scale 0 = 7
    ∧ c1St.getscale = none
    ∧ (2 : ℚ) + 3 * max |c1St.y 0| |c1St.y 0| = 8
    ∧ (stepScaleAfterExtrapolate 3 2 c1St).scale 0 = 7
    ∧ (2 : ℚ) + 3 * max |c1St.y 0| |c1St.y1 0| = 17 := by
  refine ⟨?_, rfl, ?_, ?_, ?_⟩ <;>
    norm_num [stepScaleInitial, stepScaleAfterExtrapolate,
      reb_integrator_bs_default_scale, c1St]

/-- Sub-step method selector: C method 0 is leapfrog, method 1 is the
modified midpoint.  Any other value makes the C switch default abort the
process (exit(1)); only the two implemented methods are modelled. -/
inductive Method where
  | leapfrog
  | midpoint
deriving DecidableEq

/-- First substep of the modified midpoint method, lines 177-200:
y1 = y + subStep*y0Dot, then yDot = f(y1, t0+subStep), then yTmp = y. -/
def tryStepMidFirst (states : List OdeState) (t0 subStep : ℚ) : List OdeState :=
  let s1 := states.map fun st =>
    { st with y1 := fun i =>
        if i < st.length then st.y i + subStep * st.y0Dot i else st.y1 i }
  let s2 := s1.map fun st => { st with yDot := st.derivatives st.y1 (t0 + subStep) }
  s2.map fun st =>
    { st with yTmp := fun i => if i < st.length then st.y i else st.yTmp i }

/-- Stability-check norms, lines 222-242: initialNorm sums
(y0Dot[l]/scale[l])^2 and deltaNorm sums ((yDot[l]-y0Dot[l])/scale[l])^2
over every component of every state. -/
def stabilityNorms (states : List OdeState) : ℚ × ℚ :=
  ( (states.map fun st => ∑ l in Finset.range st.length,
      (st.y0Dot l / st.scale l) * (st.y0Dot l / st.scale l)).sum,
    (states.map fun st => ∑ l in Finset.range st.length,
      ((st.yDot l - st.y0Dot l) / st.scale l) * ((st.yDot l - st.y0Dot l) / st.scale l)).sum )

/-- Body of one midpoint substep j (lines 204-218): swap
middle = y1; y1 = yTmp + 2*subStep*yDot; yTmp = middle, component-wise,
then evaluate yDot = f(y1, tNew). -/
def midSubstepUpdate (states : List OdeState) (tNew subStep : ℚ) : List OdeState :=
  let s1 := states.map fun st =>
    { st with
        y1 := fun i =>
          if i < st.length then st.yTmp i + 2 * subStep * st.yDot i else st.y1 i,
        yTmp := fun i => if i < st.length then st.y1 i else st.yTmp i }
  s1.map fun st => { st with yDot := st.derivatives st.y1 tNew }

/-- Substep loop of the midpoint method (j = 1 .. n-1, lines 202-248); rem
is the number of remaining substeps, t the running time.  The stability
check runs when j <= maxChecks and k < maxIter and rejects the attempt
(returns false) when deltaNorm > 4*max(1.0e-15, initialNorm). -/
def midSubstepsGo (subStep : ℚ) (k : ℕ) :
    ℕ → ℕ → ℚ → List OdeState → Bool × List OdeState
  | 0, _, _, states => (true, states)
  | rem + 1, j, t, states =>
    let states2 := midSubstepUpdate states (t + subStep) subStep
    if j ≤ maxChecks ∧ k < maxIter then
      let norms := stabilityNorms states2
      if norms.2 > 4 * max (1e-15 : ℚ) norms.1 then (false, states2)
      else midSubstepsGo subStep k rem (j + 1) (t + subStep) states2
    else midSubstepsGo subStep k rem (j + 1) (t + subStep) states2

/-- Modified midpoint branch of tryStep, lines 175-261.  The final
smoothing y1 = 0.5*(yTmp + y1 + subStep*yDot) runs only on success. -/
def tryStepMidpoint (states : List OdeState) (k n : ℕ) (t0 step : ℚ) :
    Bool × List OdeState :=
  let subStep := step / (n : ℚ)
  let s1 := tryStepMidFirst states t0 subStep
  let res := midSubstepsGo subStep k (n - 1) 1 (t0 + subStep) s1
  if res.1 then
    (true, res.2.map fun st =>
      { st with y1 := fun i =>
          if i < st.length then 0.5 * (st.yTmp i + st.y1 i + subStep * st.yDot i)
          else st.y1 i })
  else res

/-- Leapfrog drift with coefficient c (y1[i] += c*y1[i+3] on position
components i%6<3), lines 118-128 and 162-171. -/
def lfDrift (c : ℚ) (states : List OdeState) : List OdeState :=
  states.map fun st =>
    { st with y1 := fun i =>
        if i < st.length ∧ i % 6 < 3 then st.y1 i + c * st.y1 (i + 3) else st.y1 i }

/-- Derivative evaluation at y1, shared by both leapfrog phases. -/
def lfDeriv (t : ℚ) (states : List OdeState) : List OdeState :=
  states.map fun st => { st with yDot := st.derivatives st.y1 t }

/-- Leapfrog kick y1[i] += subStep*yDot[i] on velocity components i%6>2,
lines 132-141. -/
def lfKick (subStep : ℚ) (states : List OdeState) : List OdeState :=
  states.map fun st =>
    { st with y1 := fun i =>
        if i < st.length ∧ i % 6 > 2 then st.y1 i + subStep * st.yDot i else st.y1 i }

/-- Substep loop of the leapfrog method (j = 1 .. n-1, lines 118-160); the
stability check of this method is commented out in the source (TODO). -/
def lfLoopGo (subStep : ℚ) : ℕ → ℚ → List OdeState → List OdeState
  | 0, _, states => states
  | rem + 1, t, states =>
    lfLoopGo subStep rem (t + subStep)
      (lfKick subStep (lfDeriv (t + subStep) (lfDrift subStep states)))

/-- Leapfrog branch of tryStep, lines 87-173: half-drift from y, evaluate,
kick from y, then n-1 full drift/evaluate/kick rounds, then a closing
half-drift.  It always reports success. -/
def tryStepLeapfrog (states : List OdeState) (n : ℕ) (t0 step : ℚ) :
    Bool × List OdeState :=
  let subStep := step / (n : ℚ)
  let s1 := states.map fun st =>
    { st with y1 := fun i =>
        if i < st.length ∧ i % 6 < 3 then st.y i + 0.5 * subStep * st.y (i + 3)
        else st.y1 i }
  let s2 := lfDeriv (t0 + 0.5 * subStep) s1
  let s3 := s2.map fun st =>
    { st with y1 := fun i =>
        if i < st.length ∧ i % 6 > 2 then st.y i + subStep * st.yDot i
        else st.y1 i }
  let s4 := lfLoopGo subStep (n - 1) (t0 + 0.5 * subStep) s3
  (true, lfDrift (0.5 * subStep) s4)

/-- tryStep, lines 82-269. -/
def tryStep (states : List OdeState) (k n : ℕ) (t0 step : ℚ) :
    Method → Bool × List OdeState
  | .leapfrog => tryStepLeapfrog states n t0 step
  | .midpoint => tryStepMidpoint states k n t0 step

/-- Stability-check quantities at the first checked substep (j = 1) of the
midpoint method: I = initialNorm and Delta = deltaNorm computed right
after the j = 1 update, following the spec's description of the test. -/
def midpointFirstCheckNorms (states : List OdeState) (n : ℕ) (t0 step : ℚ) :
    ℚ × ℚ :=
  let subStep := step / (n : ℚ)
  stabilityNorms
    (midSubstepUpdate (tryStepMidFirst states t0 subStep)
      (t0 + subStep + subStep) subStep)

theorem midSubstepsGo_true_of_two_le (subStep : ℚ) (k : ℕ) :
    ∀ rem j t states, 2 ≤ j →
      (midSubstepsGo subStep k rem j t states).1 = true := by
  intro rem
  induction rem with
  | zero => intro j t states hj; rfl
  | succ rem ih =>
      intro j t states hj
      have hgate : ¬ (j ≤ maxChecks ∧ k < maxIter) := by
        rintro ⟨hle, -⟩
        exact absurd (le_trans hj hle) (by norm_num [maxChecks])
      rw [midSubstepsGo, if_neg hgate]
      exact ih (j + 1) _ _ (by omega)

theorem midSubstepsGo_true_of_maxIter_le (subStep : ℚ) (k : ℕ)
    (hk : maxIter ≤ k) :
    ∀ rem j t states, (midSubstepsGo subStep k rem j t states).1 = true := by
  intro rem
  induction rem with
  | zero => intro j t states; rfl
  | succ rem ih =>
      intro j t states
      have hgate : ¬ (j ≤ maxChecks ∧ k < maxIter) := by
        rintro ⟨-, hlt⟩
        omega
      rw [midSubstepsGo, if_neg hgate]
      exact ih (j + 1) _ _

/-- C6: with the midpoint method, tryStep returns 0 exactly when the
stability test fires at its only checked substep: k < maxIter = 2, the
substep count n admits an inner substep j = 1 (n >= 2, always true for
n = sequence[k] = 4k+2), and the norms I, Delta computed at j = 1 satisfy
Delta > 4*max(1e-15, I); in every other case it returns 1. -/
theorem C6_tryStep_midpoint_stability (states : List OdeState) (k n : ℕ)
    (t0 step : ℚ) :
    (tryStep states k n t0 step .midpoint).1 = false ↔
      (k < maxIter ∧ 2 ≤ n
        ∧ (midpointFirstCheckNorms states n t0 step).2
            > 4 * max (1e-15 : ℚ) (midpointFirstCheckNorms states n t0 step).1) := by
  simp only [tryStep, tryStepMidpoint, midpointFirstCheckNorms]
  rcases Nat.lt_or_ge n 2 with hn | hn
  · have hrem : n - 1 = 0 := by omega
    rw [hrem, midSubstepsGo]
    simp only [if_true]
    constructor
    · intro h
      exact absurd h (by simp)
    · rintro ⟨-, h2, -⟩
      omega
  · rcases Nat.lt_or_ge k maxIter with hk | hk
    · have hrem : n - 1 = (n - 2) + 1 := by omega
      rw [hrem, midSubstepsGo]
      have hgate : (1 ≤ maxChecks ∧ k < maxIter) := ⟨le_refl 1, hk⟩
      rw [if_pos hgate]
      set sts2 := midSubstepUpdate (tryStepMidFirst states t0 (step / (n : ℚ)))
        (t0 + step / (n : ℚ) + step / (n : ℚ)) (step / (n : ℚ)) with hsts2
      by_cases hfire :
          (stabilityNorms sts2).2 > 4 * max (1e-15 : ℚ) (stabilityNorms sts2).1
      · rw [if_pos hfire]
        simp [hk, hn, hfire]
      · rw [if_neg hfire]
        rw [midSubstepsGo_true_of_two_le _ _ _ _ _ _ (by omega)]
        simp [hfire]
    · rw [midSubstepsGo_true_of_maxIter_le _ _ hk]
      simp only [if_true]
      constructor
      · intro h
        exact absurd h (by simp)
      · rintro ⟨h1, -, -⟩
        omega

/-- Abstract math-library routines used by the step controller.  No claim
depends on their values, so they are opaque parameters of the model. -/
structure MathFns where
  sqrtQ : ℚ → ℚ
  powQ : ℚ → ℚ → ℚ
  log10Q : ℚ → ℚ

/-- Model of struct reb_simulation_integrator_bs: the ODE states, the
global sequence scratch arrays, the controller state and the parameters.
sequence, coeff and costPerStep are read-only after allocation;
optimalStep and costPerTimeUnit are per-step scratch. -/
structure BSIntegrator where
  states : List OdeState
  sequence : ℕ → ℕ
  costPerStep : ℕ → ℕ
  coeff : ℕ → ℚ
  costPerTimeUnit : ℕ → ℚ
  optimalStep : ℕ → ℚ
  targetIter : ℕ
  previousRejected : Bool
  firstOrLastStep : Bool
  dt_proposed : ℚ
  scalAbsoluteTolerance : ℚ
  scalRelativeTolerance : ℚ
  maxStep : ℚ
  minStep : ℚ
  method : Method

/-- Recurrence for the costPerStep array of allocate_sequence_arrays,
lines 346-349: costPerStep[0] = sequence[0] + 1 and
costPerStep[k] = costPerStep[k-1] + sequence[k]. -/
def costPerStepInit (k : ℕ) : ℕ :=
  if k = 0 then (4 * 0 + 2) + 1
  else costPerStepInit (k - 1) + (4 * k + 2)
termination_by k

/-- allocate_sequence_arrays, lines 327-357: sequence[k] = 4k+2,
coeff[j] = (1/sequence[j])^2, costPerStep as above; costPerTimeUnit[0] is
initialised to 0 and the remaining entries of costPerTimeUnit and all of
optimalStep are uninitialised in C (modelled as 0; they are overwritten
before any claim reads them). -/
def allocate_sequence_arrays (ri : BSIntegrator) : BSIntegrator :=
  { ri with
      sequence := fun k => 4 * k + 2
      costPerStep := costPerStepInit
      coeff := fun j =>
        let r : ℚ := 1 / ((4 * j + 2 : ℕ) : ℚ)
        r * r
      costPerTimeUnit := fun _ => 0
      optimalStep := fun _ => 0 }

/-- Mutable state of the convergence loop of reb_integrator_bs_step:
everything the loop body writes.  lastError is a ghost field recording the
latest value of the local variable error (none while unset); it feeds no
computation. -/
structure LoopState where
  states : List OdeState
  dt : ℚ
  targetIter : ℕ
  optimalStep : ℕ → ℚ
  costPerTimeUnit : ℕ → ℚ
  lastError : Option ℚ

/-- Result of the convergence loop: the final column index k, the reject
flag, and the final values of the mutable loop state. -/
structure LoopOut where
  k : ℕ
  reject : Bool
  states : List OdeState
  dt : ℚ
  targetIter : ℕ
  optimalStep : ℕ → ℚ
  costPerTimeUnit : ℕ → ℚ
  lastError : Option ℚ

/-- Tableau seeding after a successful tryStep, lines 422-429:
C[i] = y1[i] and D[k][i] = y1[i]. -/
def seedCD (k : ℕ) (states : List OdeState) : List OdeState :=
  states.map fun st =>
    { st with
        C := fun i => if i < st.length then st.y1 i else st.C i,
        D := fun r i => if r = k ∧ i < st.length then st.y1 i else st.D r i }

/-- Error estimate, lines 446-458: the maximum over all states and
components of (C[j]/scale[j])^2, divided by the combined length, under the
square root.  (The NaN check of line 459 cannot fire in exact rational
arithmetic.) -/
def stepError (mf : MathFns) (states : List OdeState) : ℚ :=
  let err2 := states.foldl
    (fun err st => (List.range st.length).foldl
      (fun e2 j => max e2 ((st.C j / st.scale j) * (st.C j / st.scale j))) err) 0
  let combined_length : ℕ := (states.map OdeState.length).sum
  mf.sqrtQ (err2 / (combined_length : ℚ))

/-- Optimal stepsize factor for column k, lines 475-478. -/
def stepControlFactor (mf : MathFns) (error : ℚ) (k : ℕ) : ℚ :=
  let e : ℚ := 1 / (2 * (k : ℚ) + 1)
  let fac := stepControl2 / mf.powQ (error / stepControl1) e
  let power := mf.powQ stepControl3 e
  max (power / stepControl4) (min (1 / power) fac)

/-- Order reduction guard used by all three rejection branches (e.g.
lines 503-507): decrement targetIter when targetIter > 1 and the column
below is cheaper by more than orderControl1. -/
def lowerTargetIter (cptu : ℕ → ℚ) (tI : ℕ) : ℕ :=
  if 1 < tI ∧ cptu (tI - 1) < orderControl1 * cptu tI then tI - 1 else tI

/-- Convergence switch on k - targetIter, lines 483-560.  Sum.inl is a
loop exit (loop = 0), Sum.inr continues with the next column. -/
def convergenceSwitch (ri : BSIntegrator) (k : ℕ) (error : ℚ)
    (ls : LoopState) : Sum LoopOut LoopState :=
  let acceptOut : LoopOut :=
    { k := k
      reject := false
      states := ls.states
      dt := ls.dt
      targetIter := ls.targetIter
      optimalStep := ls.optimalStep
      costPerTimeUnit := ls.costPerTimeUnit
      lastError := ls.lastError }
  if k + 1 = ls.targetIter then
    -- case -1: one before target
    if 1 < ls.targetIter ∧ ri.previousRejected = false then
      if error ≤ 1 then Sum.inl acceptOut
      else
        let ratioAsym : ℚ :=
          ((ri.sequence ls.targetIter * ri.sequence (ls.targetIter + 1) : ℕ) : ℚ)
            / ((ri.sequence 0 * ri.sequence 0 : ℕ) : ℚ)
        if error > ratioAsym * ratioAsym then
          let tI2 := lowerTargetIter ls.costPerTimeUnit k
          Sum.inl { acceptOut with
            reject := true
            targetIter := tI2
            dt := ls.optimalStep tI2 }
        else Sum.inr ls
    else Sum.inr ls
  else if k = ls.targetIter then
    -- case 0: exactly on target
    if error ≤ 1 then Sum.inl acceptOut
    else
      let ratioAsym : ℚ := ((ri.sequence (k + 1) : ℕ) : ℚ) / ((ri.sequence 0 : ℕ) : ℚ)
      if error > ratioAsym * ratioAsym then
        let tI2 := lowerTargetIter ls.costPerTimeUnit ls.targetIter
        Sum.inl { acceptOut with
          reject := true
          targetIter := tI2
          dt := ls.optimalStep tI2 }
      else Sum.inr ls
  else if k = ls.targetIter + 1 then
    -- case 1: one past target; the loop always stops here
    if error > 1 then
      let tI2 := lowerTargetIter ls.costPerTimeUnit ls.targetIter
      Sum.inl { acceptOut with
        reject := true
        targetIter := tI2
        dt := ls.optimalStep tI2 }
    else Sum.inl acceptOut
  else
    -- default case
    if ri.firstOrLastStep = true ∧ error ≤ 1 then Sum.inl acceptOut
    else Sum.inr ls

/-- One iteration of the convergence loop at column k, lines 408-564. -/
def stepIter (mf : MathFns) (ri : BSIntegrator) (t : ℚ) (k : ℕ)
    (ls : LoopState) : Sum LoopOut LoopState :=
  let tryRes := tryStep ls.states k (ri.sequence k) t ls.dt ri.method
  if tryRes.1 = false then
    -- stability check failed: reduce the global step and reject
    Sum.inl
      { k := k
        reject := true
        states := tryRes.2
        dt := |ls.dt * stabilityReduction|
        targetIter := ls.targetIter
        optimalStep := ls.optimalStep
        costPerTimeUnit := ls.costPerTimeUnit
        lastError := ls.lastError }
  else
    let states1 := seedCD k tryRes.2
    if k = 0 then Sum.inr { ls with states := states1 }
    else
      let states2 := states1.map fun st =>
        stepScaleAfterExtrapolate ri.scalRelativeTolerance
          ri.scalAbsoluteTolerance (extrapolate st ri.coeff k)
      let error := stepError mf states2
      if error > 1e25 then
        Sum.inl
          { k := k
            reject := true
            states := states2
            dt := |ls.dt * stabilityReduction|
            targetIter := ls.targetIter
            optimalStep := ls.optimalStep
            costPerTimeUnit := ls.costPerTimeUnit
            lastError := some error }
      else
        let fac := stepControlFactor mf error k
        let oStep : ℕ → ℚ := fun r => if r = k then |ls.dt * fac| else ls.optimalStep r
        let cptu : ℕ → ℚ := fun r =>
          if r = k then ((ri.costPerStep k : ℕ) : ℚ) / oStep k else ls.costPerTimeUnit r
        convergenceSwitch ri k error
          { states := states2
            dt := ls.dt
            targetIter := ls.targetIter
            optimalStep := oStep
            costPerTimeUnit := cptu
            lastError := some error }

/-- Convergence loop, lines 407-564, with an explicit fuel bound; k counts
the columns 0, 1, 2, ... exactly as the ++k of line 410.  none means the
fuel (sequence_length iterations, enough for every reachable targetIter,
see C9) was exhausted. -/
def stepLoopGo (mf : MathFns) (ri : BSIntegrator) (t : ℚ) :
    ℕ → ℕ → LoopState → Option LoopOut
  | 0, _, _ => none
  | fuel + 1, k, ls =>
    match stepIter mf ri t k ls with
    | Sum.inl out => some out
    | Sum.inr ls2 => stepLoopGo mf ri t fuel (k + 1) ls2

/-- Initial order selection, lines 373-377: on first use (targetIter = 0)
set targetIter = max(1, min(sequence_length-2, floor(0.5 - 0.6*log10(max
(1.0e-10, scalRelativeTolerance))))). -/
def selectTargetIter (mf : MathFns) (ri : BSIntegrator) : ℕ :=
  if ri.targetIter = 0 then
    let log10R := mf.log10Q (max (1e-10 : ℚ) ri.scalRelativeTolerance)
    (max 1 (min ((sequence_length : ℤ) - 2) ⌊(0.5 : ℚ) - 0.6 * log10R⌋)).toNat
  else ri.targetIter

/-- Loop state at entry of the convergence loop: scale initialised
(lines 387-393), y0Dot evaluated for the midpoint method (lines 396-400),
dt the signed step argument. -/
def initialLoopState (mf : MathFns) (ri : BSIntegrator) (t dt0 : ℚ) : LoopState :=
  let states0 := ri.states.map
    (stepScaleInitial ri.scalRelativeTolerance ri.scalAbsoluteTolerance)
  let states1 := match ri.method with
    | Method.midpoint => states0.map fun st =>
        { st with y0Dot := st.derivatives st.y t }
    | Method.leapfrog => states0
  { states := states1
    dt := dt0
    targetIter := selectTargetIter mf ri
    optimalStep := ri.optimalStep
    costPerTimeUnit := ri.costPerTimeUnit
    lastError := none }

/-- Post-loop acceptance control, lines 567-619: on acceptance swap y and
y1 (the commit), pick optimalIter from the cost model, and derive the next
dt and targetIter; on rejection leave states, dt and targetIter as the
loop produced them.  Returns (states, dt, targetIter). -/
def acceptanceControl (ri : BSIntegrator) (out : LoopOut) :
    List OdeState × ℚ × ℕ :=
  if out.reject = true then (out.states, out.dt, out.targetIter)
  else
    let swapped := out.states.map fun st => { st with y := st.y1, y1 := st.y }
    let k := out.k
    let optimalIter : ℕ :=
      if k = 1 then (if ri.previousRejected = true then 1 else 2)
      else if k ≤ out.targetIter then
        if out.costPerTimeUnit (k - 1) < orderControl1 * out.costPerTimeUnit k then
          k - 1
        else if out.costPerTimeUnit k < orderControl2 * out.costPerTimeUnit (k - 1) then
          min (k + 1) (sequence_length - 2)
        else k
      else
        let oi : ℕ :=
          if 2 < k ∧ out.costPerTimeUnit (k - 2) < orderControl1 * out.costPerTimeUnit (k - 1)
          then k - 2 else k - 1
        if out.costPerTimeUnit k < orderControl2 * out.costPerTimeUnit oi then
          min k (sequence_length - 2)
        else oi
    if ri.previousRejected = true then
      -- after a rejected step neither order nor stepsize should increase
      let tI := min optimalIter k
      (swapped, min |out.dt| (out.optimalStep tI), tI)
    else
      let dtNew :=
        if optimalIter ≤ k then out.optimalStep optimalIter
        else if k < out.targetIter
            ∧ out.costPerTimeUnit k < orderControl2 * out.costPerTimeUnit (k - 1) then
          out.optimalStep k * ((ri.costPerStep (optimalIter + 1) : ℕ) : ℚ)
            / ((ri.costPerStep k : ℕ) : ℚ)
        else
          out.optimalStep k * ((ri.costPerStep optimalIter : ℕ) : ℚ)
            / ((ri.costPerStep k : ℕ) : ℚ)
      (swapped, dtNew, optimalIter)

/-- Result of one reb_integrator_bs_step call: the updated integrator
state and the return value (accepted).  kFinal and lastError are ghost
observations of the convergence loop. -/
structure StepResult where
  states : List OdeState
  targetIter : ℕ
  previousRejected : Bool
  firstOrLastStep : Bool
  dt_proposed : ℚ
  optimalStep : ℕ → ℚ
  costPerTimeUnit : ℕ → ℚ
  accepted : Bool
  lastError : Option ℚ
  kFinal : ℕ

/-- Post-loop section of reb_integrator_bs_step, lines 567-647: acceptance
control, the |dt| clamp against minStep and maxStep (exit(0), modelled as
none, when a bound is crossed), sign restoration (forward = (dt >= 0)),
and publication of dt_proposed, previousRejected, firstOrLastStep and the
return value. -/
def stepFinish (ri : BSIntegrator) (dt0 : ℚ) (out : LoopOut) :
    Option StepResult :=
  let acc := acceptanceControl ri out
  let dt1 := |acc.2.1|
  if dt1 < ri.minStep then none
  else if dt1 > ri.maxStep ∧ 0 < ri.maxStep then none
  else some
    { states := acc.1
      targetIter := acc.2.2
      previousRejected := out.reject
      firstOrLastStep := if out.reject = true then ri.firstOrLastStep else false
      dt_proposed := if 0 ≤ dt0 then dt1 else -dt1
      optimalStep := out.optimalStep
      costPerTimeUnit := out.costPerTimeUnit
      accepted := !out.reject
      lastError := out.lastError
      kFinal := out.k }

/-- reb_integrator_bs_step, lines 368-648.  none models the exit(0) calls
of lines 624-634 (minimal/maximal stepsize reached) and, additionally, the
executions whose convergence loop would run past sequence_length columns
(unreachable under the targetIter precondition, see C9). -/
def reb_integrator_bs_step (mf : MathFns) (ri : BSIntegrator) (t dt0 : ℚ) :
    Option StepResult :=
  match stepLoopGo mf ri t sequence_length 0 (initialLoopState mf ri t dt0) with
  | none => none
  | some out => stepFinish ri dt0 out

theorem map_comp_y (f : OdeState → OdeState) (L : List OdeState)
    (hf : ∀ st, (f st).y = st.y) (tgt : List (ℕ → ℚ))
    (hL : L.map OdeState.y = tgt) :
    (L.map f).map OdeState.y = tgt := by
  rw [List.map_map, ← hL]
  exact List.map_congr_left fun st _ => hf st

theorem tryStepMidFirst_y (states : List OdeState) (t0 subStep : ℚ) :
    (tryStepMidFirst states t0 subStep).map OdeState.y
      = states.map OdeState.y := by
  simp only [tryStepMidFirst]
  apply map_comp_y
  · exact fun st => rfl
  · apply map_comp_y
    · exact fun st => rfl
    · apply map_comp_y
      · exact fun st => rfl
      · rfl

theorem midSubstepUpdate_y (states : List OdeState) (tNew subStep : ℚ) :
    (midSubstepUpdate states tNew subStep).map OdeState.y
      = states.map OdeState.y := by
  simp only [midSubstepUpdate]
  apply map_comp_y
  · exact fun st => rfl
  · apply map_comp_y
    · exact fun st => rfl
    · rfl

theorem midSubstepsGo_y (subStep : ℚ) (k : ℕ) :
    ∀ rem j t states,
      ((midSubstepsGo subStep k rem j t states).2).map OdeState.y
        = states.map OdeState.y := by
  intro rem
  induction rem with
  | zero => intro j t states; rfl
  | succ rem ih =>
      intro j t states
      simp only [midSubstepsGo]
      split_ifs with h1 h2
      · exact midSubstepUpdate_y states _ _
      · rw [ih, midSubstepUpdate_y]
      · rw [ih, midSubstepUpdate_y]

theorem tryStepMidpoint_y (states : List OdeState) (k n : ℕ) (t0 step : ℚ) :
    ((tryStepMidpoint states k n t0 step).2).map OdeState.y
      = states.map OdeState.y := by
  simp only [tryStepMidpoint]
  split_ifs with h1
  · apply map_comp_y
    · exact fun st => rfl
    · rw [midSubstepsGo_y, tryStepMidFirst_y]
  · rw [midSubstepsGo_y, tryStepMidFirst_y]

theorem lfDrift_y (c : ℚ) (states : List OdeState) :
    (lfDrift c states).map OdeState.y = states.map OdeState.y := by
  apply map_comp_y
  · exact fun st => rfl
  · rfl

theorem lfDeriv_y (t : ℚ) (states : List OdeState) :
    (lfDeriv t states).map OdeState.y = states.map OdeState.y := by
  apply map_comp_y
  · exact fun st => rfl
  · rfl

theorem lfKick_y (subStep : ℚ) (states : List OdeState) :
    (lfKick subStep states).map OdeState.y = states.map OdeState.y := by
  apply map_comp_y
  · exact fun st => rfl
  · rfl

theorem lfLoopGo_y (subStep : ℚ) :
    ∀ rem t states,
      (lfLoopGo subStep rem t states).map OdeState.y
        = states.map OdeState.y := by
  intro rem
  induction rem with
  | zero => intro t states; rfl
  | succ rem ih =>
      intro t states
      simp only [lfLoopGo]
      rw [ih, lfKick_y, lfDeriv_y, lfDrift_y]

theorem tryStepLeapfrog_y (states : List OdeState) (n : ℕ) (t0 step : ℚ) :
    ((tryStepLeapfrog states n t0 step).2).map OdeState.y
      = states.map OdeState.y := by
  simp only [tryStepLeapfrog]
  rw [lfDrift_y, lfLoopGo_y]
  apply map_comp_y
  · exact fun st => rfl
  · rw [lfDeriv_y]
    apply map_comp_y
    · exact fun st => rfl
    · rfl

theorem tryStep_y (states : List OdeState) (k n : ℕ) (t0 step : ℚ)
    (m : Method) :
    ((tryStep states k n t0 step m).2).map OdeState.y
      = states.map OdeState.y := by
  cases m
  · exact tryStepLeapfrog_y states n t0 step
  · exact tryStepMidpoint_y states k n t0 step

theorem seedCD_y (k : ℕ) (states : List OdeState) :
    (seedCD k states).map OdeState.y = states.map OdeState.y := by
  simp only [seedCD]
  apply map_comp_y
  · exact fun st => rfl
  · rfl

theorem extrapolate_y (st : OdeState) (coeff : ℕ → ℚ) (k : ℕ) :
    (extrapolate st coeff k).y = st.y := rfl

theorem stepScaleAfterExtrapolate_y (relT absT : ℚ) (st : OdeState) :
    (stepScaleAfterExtrapolate relT absT st).y = st.y := by
  cases h : st.getscale <;>
    simp [stepScaleAfterExtrapolate, h, reb_integrator_bs_default_scale]

theorem stepScaleInitial_y (relT absT : ℚ) (st : OdeState) :
    (stepScaleInitial relT absT st).y = st.y := by
  cases h : st.getscale <;>
    simp [stepScaleInitial, h, reb_integrator_bs_default_scale]

theorem lowerTargetIter_bounds (cptu : ℕ → ℚ) (m : ℕ) (hm : 1 ≤ m) :
    1 ≤ lowerTargetIter cptu m ∧ lowerTargetIter cptu m ≤ m := by
  unfold lowerTargetIter
  split_ifs with h
  · omega
  · omega

theorem convergenceSwitch_inr_eq (ri : BSIntegrator) (k : ℕ) (error : ℚ)
    (ls ls2 : LoopState)
    (h : convergenceSwitch ri k error ls = Sum.inr ls2) : ls2 = ls := by
  simp only [convergenceSwitch] at h
  split_ifs at h <;> injection h with h2 <;> exact h2.symm

theorem convergenceSwitch_inl_spec (ri : BSIntegrator) (k : ℕ) (error : ℚ)
    (ls : LoopState) (out : LoopOut)
    (h : convergenceSwitch ri k error ls = Sum.inl out) :
    out.k = k ∧ out.states = ls.states
    ∧ (out.reject = false →
        out.lastError = ls.lastError ∧ error ≤ 1 ∧ out.targetIter = ls.targetIter)
    ∧ (1 ≤ ls.targetIter →
        1 ≤ out.targetIter ∧ out.targetIter ≤ ls.targetIter) := by
  simp only [convergenceSwitch] at h
  split_ifs at h with h1 h2 h3 h4 h5 h6 h7 h8 h9 h10
  all_goals cases h
  all_goals refine ⟨rfl, rfl, fun hc => ?_, fun ht => ?_⟩
  all_goals try (simp at hc)
  all_goals try (exact ⟨rfl, by assumption, rfl⟩)
  all_goals try (exact ⟨rfl, le_of_not_lt (by assumption), rfl⟩)
  all_goals try (exact ⟨rfl,
    (by assumption : ri.firstOrLastStep = true ∧ error ≤ 1).2, rfl⟩)
  all_goals try (exact ⟨ht, le_refl ls.targetIter⟩)
  all_goals try (exact lowerTargetIter_bounds ls.costPerTimeUnit ls.targetIter ht)
  all_goals
    (obtain ⟨hb1, hb2⟩ := lowerTargetIter_bounds ls.costPerTimeUnit k (by omega)
     refine ⟨hb1, ?_⟩
     show lowerTargetIter ls.costPerTimeUnit k ≤ ls.targetIter
     omega)

theorem convergenceSwitch_case1_isLeft (ri : BSIntegrator) (k : ℕ) (error : ℚ)
    (ls : LoopState) (hk : k = ls.targetIter + 1) :
    (convergenceSwitch ri k error ls).isLeft = true := by
  simp only [convergenceSwitch]
  rw [if_neg (by omega), if_neg (by omega), if_pos hk]
  split_ifs <;> rfl

theorem states2_y (ri : BSIntegrator) (k : ℕ) (L : List OdeState) :
    ((seedCD k L).map fun st =>
      stepScaleAfterExtrapolate ri.scalRelativeTolerance
        ri.scalAbsoluteTolerance (extrapolate st ri.coeff k)).map OdeState.y
      = L.map OdeState.y := by
  apply map_comp_y
  · exact fun st => by rw [stepScaleAfterExtrapolate_y, extrapolate_y]
  · exact seedCD_y k L

theorem stepIter_inr_spec (mf : MathFns) (ri : BSIntegrator) (t : ℚ) (k : ℕ)
    (ls ls2 : LoopState) (h : stepIter mf ri t k ls = Sum.inr ls2) :
    ls2.targetIter = ls.targetIter
    ∧ ls2.states.map OdeState.y = ls.states.map OdeState.y := by
  simp only [stepIter] at h
  split_ifs at h with h1 h2 h3
  all_goals try (cases h)
  all_goals try (exact ⟨rfl, by rw [seedCD_y, tryStep_y]⟩)
  all_goals
    (have he := convergenceSwitch_inr_eq _ _ _ _ _ h
     subst he
     exact ⟨rfl, by rw [states2_y, tryStep_y]⟩)

theorem stepIter_inl_spec (mf : MathFns) (ri : BSIntegrator) (t : ℚ) (k : ℕ)
    (ls : LoopState) (out : LoopOut)
    (h : stepIter mf ri t k ls = Sum.inl out) :
    out.k = k
    ∧ out.states.map OdeState.y = ls.states.map OdeState.y
    ∧ (1 ≤ ls.targetIter → 1 ≤ out.targetIter ∧ out.targetIter ≤ ls.targetIter)
    ∧ (out.reject = false → 1 ≤ k ∧ ∃ e, out.lastError = some e ∧ e ≤ 1) := by
  simp only [stepIter] at h
  split_ifs at h with h1 h2 h3
  all_goals try (cases h)
  -- the two literal reject exits (stability failure, error > 1e25)
  all_goals try
    (exact ⟨rfl, by rw [tryStep_y], fun ht => ⟨ht, le_refl ls.targetIter⟩,
      fun hc => by simp at hc⟩)
  all_goals try
    (exact ⟨rfl, by rw [states2_y, tryStep_y], fun ht => ⟨ht, le_refl ls.targetIter⟩,
      fun hc => by simp at hc⟩)
  -- the convergence-switch exits
  all_goals
    (obtain ⟨hk2, hst, hrj, hbd⟩ := convergenceSwitch_inl_spec _ _ _ _ _ h
     refine ⟨hk2, ?_, fun ht => hbd ht, fun hrj2 => ?_⟩
     · rw [hst]
       rw [states2_y, tryStep_y]
     · obtain ⟨hle, he1, -⟩ := hrj hrj2
       exact ⟨by omega, stepError mf ((seedCD k
           (tryStep ls.states k (ri.sequence k) t ls.dt ri.method).2).map fun st =>
           stepScaleAfterExtrapolate ri.scalRelativeTolerance
             ri.scalAbsoluteTolerance (extrapolate st ri.coeff k)),
         hle.trans rfl, he1⟩)

theorem stepIter_case1_isLeft (mf : MathFns) (ri : BSIntegrator) (t : ℚ)
    (k : ℕ) (ls : LoopState) (hk : k = ls.targetIter + 1)
    (ht : 1 ≤ ls.targetIter) :
    (stepIter mf ri t k ls).isLeft = true := by
  simp only [stepIter]
  split_ifs with h1 h2 h3
  · rfl
  · omega
  · rfl
  · exact convergenceSwitch_case1_isLeft ri k _ _ hk

theorem stepLoopGo_some_spec (mf : MathFns) (ri : BSIntegrator) (t : ℚ) :
    ∀ fuel k ls out, stepLoopGo mf ri t fuel k ls = some out →
      out.states.map OdeState.y = ls.states.map OdeState.y
      ∧ (1 ≤ ls.targetIter → 1 ≤ out.targetIter ∧ out.targetIter ≤ ls.targetIter)
      ∧ (out.reject = false → 1 ≤ out.k ∧ ∃ e, out.lastError = some e ∧ e ≤ 1) := by
  intro fuel
  induction fuel with
  | zero => intro k ls out h; cases h
  | succ fuel ih =>
      intro k ls out h
      rw [stepLoopGo] at h
      cases hit : stepIter mf ri t k ls with
      | inl o =>
          rw [hit] at h
          have h2 : some o = some out := h
          injection h2 with h3
          subst h3
          obtain ⟨hk2, hst, hbd, hrj⟩ := stepIter_inl_spec _ _ _ _ _ _ hit
          refine ⟨hst, hbd, fun hr => ?_⟩
          obtain ⟨hk1, e, he, he1⟩ := hrj hr
          exact ⟨by omega, e, he, he1⟩
      | inr ls2 =>
          rw [hit] at h
          have h2 : stepLoopGo mf ri t fuel (k + 1) ls2 = some out := h
          obtain ⟨hti, hst⟩ := stepIter_inr_spec _ _ _ _ _ _ hit
          obtain ⟨ih1, ih2, ih3⟩ := ih (k + 1) ls2 out h2
          refine ⟨ih1.trans hst, fun ht => ?_, ih3⟩
          rw [← hti]
          exact ih2 (by rw [hti]; exact ht)

theorem stepLoopGo_terminates (mf : MathFns) (ri : BSIntegrator) (t : ℚ) :
    ∀ fuel k ls, 1 ≤ ls.targetIter → k ≤ ls.targetIter + 1 →
      ls.targetIter + 2 ≤ fuel + k →
      ∃ out, stepLoopGo mf ri t fuel k ls = some out
        ∧ out.k ≤ ls.targetIter + 1 := by
  intro fuel
  induction fuel with
  | zero => intro k ls h1 h2 h3; omega
  | succ fuel ih =>
      intro k ls h1 h2 h3
      rw [stepLoopGo]
      cases hit : stepIter mf ri t k ls with
      | inl o =>
          obtain ⟨hk2, -, -, -⟩ := stepIter_inl_spec _ _ _ _ _ _ hit
          exact ⟨o, rfl, by omega⟩
      | inr ls2 =>
          obtain ⟨hti, -⟩ := stepIter_inr_spec _ _ _ _ _ _ hit
          have hkne : ¬ k = ls.targetIter + 1 := by
            intro hkeq
            have hL := stepIter_case1_isLeft mf ri t k ls hkeq h1
            rw [hit] at hL
            simp at hL
          obtain ⟨out, hout, hbk⟩ := ih (k + 1) ls2 (by omega) (by omega) (by omega)
          exact ⟨out, hout, by omega⟩

theorem stepFinish_some_spec (ri : BSIntegrator) (dt0 : ℚ) (out : LoopOut)
    (res : StepResult) (h : stepFinish ri dt0 out = some res) :
    res.accepted = !out.reject
    ∧ res.lastError = out.lastError
    ∧ res.targetIter = (acceptanceControl ri out).2.2
    ∧ res.states = (acceptanceControl ri out).1
    ∧ res.firstOrLastStep = (if out.reject = true then ri.firstOrLastStep else false)
    ∧ ri.minStep ≤ |res.dt_proposed|
    ∧ (0 < ri.maxStep → |res.dt_proposed| ≤ ri.maxStep)
    ∧ (0 ≤ dt0 → 0 ≤ res.dt_proposed) ∧ (dt0 < 0 → res.dt_proposed ≤ 0) := by
  simp only [stepFinish] at h
  by_cases hmin : |(acceptanceControl ri out).2.1| < ri.minStep
  · rw [if_pos hmin] at h
    cases h
  · rw [if_neg hmin] at h
    by_cases hmax : |(acceptanceControl ri out).2.1| > ri.maxStep ∧ 0 < ri.maxStep
    · rw [if_pos hmax] at h
      cases h
    · rw [if_neg hmax] at h
      cases h
      have habs : abs (if 0 ≤ dt0 then |(acceptanceControl ri out).2.1|
          else -|(acceptanceControl ri out).2.1|) = |(acceptanceControl ri out).2.1| := by
        split_ifs with hf
        · rw [abs_abs]
        · rw [abs_neg, abs_abs]
      refine ⟨rfl, rfl, rfl, rfl, rfl, ?_, ?_, ?_, ?_⟩
      · show ri.minStep ≤ abs (if 0 ≤ dt0 then _ else _)
        rw [habs]
        exact le_of_not_lt hmin
      · intro hpos
        show abs (if 0 ≤ dt0 then _ else _) ≤ ri.maxStep
        rw [habs]
        by_contra hgt
        exact hmax ⟨lt_of_not_le hgt, hpos⟩
      · intro hf
        show (0 : ℚ) ≤ if 0 ≤ dt0 then |(acceptanceControl ri out).2.1| else _
        rw [if_pos hf]
        exact abs_nonneg _
      · intro hf
        show (if 0 ≤ dt0 then _ else -|(acceptanceControl ri out).2.1|) ≤ (0 : ℚ)
        rw [if_neg (not_le.mpr hf)]
        exact neg_nonpos.mpr (abs_nonneg _)

theorem acceptanceControl_targetIter_bounds (ri : BSIntegrator) (out : LoopOut)
    (h1 : 1 ≤ out.targetIter) (h7 : out.targetIter ≤ sequence_length - 2)
    (hk : out.reject = false → 1 ≤ out.k)
    (hk2 : out.k ≤ sequence_length - 1) :
    1 ≤ (acceptanceControl ri out).2.2
    ∧ (acceptanceControl ri out).2.2 ≤ sequence_length - 2 := by
  have hsl : sequence_length = 9 := rfl
  rw [hsl] at h7 hk2
  simp only [acceptanceControl]
  rw [hsl]
  by_cases hr : out.reject = true
  · rw [if_pos hr]
    dsimp only
    omega
  · rw [if_neg hr]
    simp only [Bool.not_eq_true] at hr
    have hk1 : 1 ≤ out.k := hk hr
    split_ifs <;> dsimp only <;> omega

/-- C2: whenever reb_integrator_bs_step returns, the published dt_proposed
satisfies minStep <= |dt_proposed|, |dt_proposed| <= maxStep when
maxStep > 0, its sign (direction) agrees with the dt argument, and a
return value of 1 (accepted) implies that the last error computed in the
convergence loop satisfied error <= 1. -/
theorem C2_step_control_invariants (mf : MathFns) (ri : BSIntegrator)
    (t dt0 : ℚ) (res : StepResult)
    (h : reb_integrator_bs_step mf ri t dt0 = some res) :
    ri.minStep ≤ |res.dt_proposed|
    ∧ (0 < ri.maxStep → |res.dt_proposed| ≤ ri.maxStep)
    ∧ (0 ≤ dt0 → 0 ≤ res.dt_proposed) ∧ (dt0 < 0 → res.dt_proposed ≤ 0)
    ∧ (res.accepted = true → ∃ e, res.lastError = some e ∧ e ≤ 1) := by
  simp only [reb_integrator_bs_step] at h
  cases hL : stepLoopGo mf ri t sequence_length 0 (initialLoopState mf ri t dt0) with
  | none => rw [hL] at h; cases h
  | some out =>
      rw [hL] at h
      have h2 : stepFinish ri dt0 out = some res := h
      obtain ⟨ha, hle, -, -, -, hmin, hmax, hs1, hs2⟩ :=
        stepFinish_some_spec _ _ _ _ h2
      refine ⟨hmin, hmax, hs1, hs2, fun hacc => ?_⟩
      have hrj : out.reject = false := by
        rw [ha] at hacc
        simpa using hacc
      obtain ⟨-, -, h3⟩ := stepLoopGo_some_spec mf ri t _ _ _ _ hL
      obtain ⟨-, e, he, he1⟩ := h3 hrj
      exact ⟨e, by rw [hle, he], he1⟩

/-- C3: a rejected step (return value 0) leaves every ODE state's y buffer
exactly as it was at entry (the committing y/y1 swap runs only on
acceptance) and leaves firstOrLastStep unchanged; only targetIter,
previousRejected, dt_proposed and scratch buffers may differ. -/
theorem C3_rejected_step_preserves_y (mf : MathFns) (ri : BSIntegrator)
    (t dt0 : ℚ) (res : StepResult)
    (h : reb_integrator_bs_step mf ri t dt0 = some res)
    (hrej : res.accepted = false) :
    res.states.map OdeState.y = ri.states.map OdeState.y
    ∧ res.firstOrLastStep = ri.firstOrLastStep := by
  simp only [reb_integrator_bs_step] at h
  cases hL : stepLoopGo mf ri t sequence_length 0 (initialLoopState mf ri t dt0) with
  | none => rw [hL] at h; cases h
  | some out =>
      rw [hL] at h
      have h2 : stepFinish ri dt0 out = some res := h
      obtain ⟨ha, -, -, hst, hfl, -, -, -, -⟩ := stepFinish_some_spec _ _ _ _ h2
      have hrj : out.reject = true := by
        rw [ha] at hrej
        simpa using hrej
      constructor
      · rw [hst]
        unfold acceptanceControl
        rw [if_pos hrj]
        have hy := (stepLoopGo_some_spec mf ri t _ _ _ _ hL).1
        rw [hy]
        simp only [initialLoopState]
        cases hm : ri.method
        · apply map_comp_y
          · exact fun st => stepScaleInitial_y _ _ st
          · rfl
        · apply map_comp_y
          · exact fun st => rfl
          · apply map_comp_y
            · exact fun st => stepScaleInitial_y _ _ st
            · rfl
      · rw [hfl, if_pos hrj]

/-- C9: under the precondition targetIter = 0 or
1 <= targetIter <= sequence_length - 2, the initial order selection yields
a targetIter in [1, sequence_length-2], the convergence loop terminates
within the allotted sequence_length iterations with final column
k <= targetIter + 1 <= sequence_length - 1 (so sequence[k], sequence[k+1],
D[k], optimalStep[k] and costPerTimeUnit[k] all stay within the allocated
length sequence_length = 9), and every targetIter written back satisfies
1 <= targetIter <= sequence_length - 2. -/
theorem C9_loop_and_index_bounds (mf : MathFns) (ri : BSIntegrator)
    (t dt0 : ℚ)
    (hpre : ri.targetIter = 0
      ∨ (1 ≤ ri.targetIter ∧ ri.targetIter ≤ sequence_length - 2)) :
    (1 ≤ selectTargetIter mf ri ∧ selectTargetIter mf ri ≤ sequence_length - 2)
    ∧ (∃ out,
        stepLoopGo mf ri t sequence_length 0 (initialLoopState mf ri t dt0)
          = some out
        ∧ out.k ≤ selectTargetIter mf ri + 1)
    ∧ selectTargetIter mf ri + 1 ≤ sequence_length - 1
    ∧ (∀ res, reb_integrator_bs_step mf ri t dt0 = some res →
        1 ≤ res.targetIter ∧ res.targetIter ≤ sequence_length - 2) := by
  have hsl : sequence_length = 9 := rfl
  have hsel : 1 ≤ selectTargetIter mf ri
      ∧ selectTargetIter mf ri ≤ sequence_length - 2 := by
    simp only [selectTargetIter]
    split_ifs with h0
    · rw [hsl]
      constructor <;> omega
    · rcases hpre with hpre | hpre
      · exact absurd hpre h0
      · exact hpre
  have hini : (initialLoopState mf ri t dt0).targetIter = selectTargetIter mf ri := rfl
  obtain ⟨out, hout, hbk⟩ := stepLoopGo_terminates mf ri t sequence_length 0
    (initialLoopState mf ri t dt0) (by rw [hini]; exact hsel.1) (by omega)
    (by rw [hini, hsl]; omega)
  rw [hini] at hbk
  refine ⟨hsel, ⟨out, hout, hbk⟩, by omega, fun res h => ?_⟩
  simp only [reb_integrator_bs_step] at h
  rw [hout] at h
  have h2 : stepFinish ri dt0 out = some res := h
  obtain ⟨-, -, hti, -, -, -, -, -, -⟩ := stepFinish_some_spec _ _ _ _ h2
  obtain ⟨-, hbd, hrj⟩ := stepLoopGo_some_spec mf ri t _ _ _ _ hout
  rw [hini] at hbd
  obtain ⟨hb1, hb2⟩ := hbd hsel.1
  have hacc := acceptanceControl_targetIter_bounds ri out hb1
    (by omega) (fun hr => (hrj hr).1) (by omega)
  rw [hti]
  exact hacc

/-- Math functions used by the concrete witness runs. -/
def mfW : MathFns :=
  { sqrtQ := fun _ => 0, powQ := fun _ _ => 1, log10Q := fun _ => 0 }

/-- One-component ODE with a vanishing derivative; the step is accepted. -/
def stW : OdeState :=
  { length := 1
    y := fun _ => 1, y1 := fun _ => 0, y0Dot := fun _ => 0, yDot := fun _ => 0
    yTmp := fun _ => 0, C := fun _ => 0, D := fun _ _ => 0, scale := fun _ => 1
    derivatives := fun _ _ _ => 0, getscale := none }

def riW : BSIntegrator :=
  { states := [stW]
    sequence := fun _ => 1
    costPerStep := fun _ => 1
    coeff := fun j => (j : ℚ) + 1
    costPerTimeUnit := fun _ => 0
    optimalStep := fun _ => 0
    targetIter := 1
    previousRejected := false
    firstOrLastStep := true
    dt_proposed := 0
    scalAbsoluteTolerance := 1e-5
    scalRelativeTolerance := 1e-5
    maxStep := 10
    minStep := 1e-8
    method := Method.midpoint }

theorem C2_step_control_invariants_witness :
    Option.elim (reb_integrator_bs_step mfW riW 0 1) False
      (fun res =>
        riW.minStep ≤ |res.dt_proposed|
        ∧ (0 < riW.maxStep → |res.dt_proposed| ≤ riW.maxStep)
        ∧ ((0 : ℚ) ≤ 1 → 0 ≤ res.dt_proposed)
        ∧ ((1 : ℚ) < 0 → res.dt_proposed ≤ 0)
        ∧ (res.accepted = true → ∃ e, res.lastError = some e ∧ e ≤ 1)) := by
  have hs : (reb_integrator_bs_step mfW riW 0 1).isSome = true := by
    set_option maxRecDepth 4000 in
    norm_num [reb_integrator_bs_step, stepLoopGo, stepIter, initialLoopState,
      selectTargetIter, stepScaleInitial, stepScaleAfterExtrapolate,
      reb_integrator_bs_default_scale, tryStep, tryStepMidpoint, tryStepMidFirst,
      midSubstepsGo, midSubstepUpdate, stabilityNorms, seedCD, extrapolate,
      sweepIter, extrapolateSweep, stepError, stepControlFactor,
      convergenceSwitch, lowerTargetIter, stepFinish, acceptanceControl,
      costPerStepInit, stepControl1, stepControl2, stepControl3, stepControl4,
      orderControl1, orderControl2, stabilityReduction, maxIter, maxChecks,
      sequence_length, maxOrder, mfW, stW, riW, List.range_succ,
      Finset.sum_range_succ, abs_of_nonneg]
  cases h : reb_integrator_bs_step mfW riW 0 1 with
  | none => rw [h] at hs; cases hs
  | some res =>
      simp only [Option.elim]
      exact C2_step_control_invariants mfW riW 0 1 res h

/-- One-component ODE whose derivative grows with t, so the j = 1
stability check of the first column rejects the attempt. -/
def stW3 : OdeState :=
  { length := 1
    y := fun _ => 0, y1 := fun _ => 0, y0Dot := fun _ => 0, yDot := fun _ => 0
    yTmp := fun _ => 0, C := fun _ => 0, D := fun _ _ => 0, scale := fun _ => 1
    derivatives := fun _ t _ => t, getscale := none }

def riW3 : BSIntegrator :=
  { states := [stW3]
    sequence := fun _ => 2
    costPerStep := fun _ => 1
    coeff := fun j => (j : ℚ) + 1
    costPerTimeUnit := fun _ => 0
    optimalStep := fun _ => 0
    targetIter := 1
    previousRejected := false
    firstOrLastStep := true
    dt_proposed := 0
    scalAbsoluteTolerance := 1
    scalRelativeTolerance := 1
    maxStep := 10
    minStep := 1e-8
    method := Method.midpoint }

theorem C3_rejected_step_preserves_y_witness :
    Option.elim (reb_integrator_bs_step mfW riW3 0 1) False
      (fun res => res.states.map OdeState.y = riW3.states.map OdeState.y
        ∧ res.firstOrLastStep = riW3.firstOrLastStep) := by
  have hacc : (reb_integrator_bs_step mfW riW3 0 1).map StepResult.accepted
      = some false := by
    set_option maxRecDepth 4000 in
    norm_num [reb_integrator_bs_step, stepLoopGo, stepIter, initialLoopState,
      selectTargetIter, stepScaleInitial, stepScaleAfterExtrapolate,
      reb_integrator_bs_default_scale, tryStep, tryStepMidpoint, tryStepMidFirst,
      midSubstepsGo, midSubstepUpdate, stabilityNorms, seedCD, extrapolate,
      sweepIter, extrapolateSweep, stepError, stepControlFactor,
      convergenceSwitch, lowerTargetIter, stepFinish, acceptanceControl,
      stepControl1, stepControl2, stepControl3, stepControl4,
      orderControl1, orderControl2, stabilityReduction, maxIter, maxChecks,
      sequence_length, maxOrder, mfW, stW3, riW3, List.range_succ,
      Finset.sum_range_succ, abs_of_nonneg]
  cases h : reb_integrator_bs_step mfW riW3 0 1 with
  | none => rw [h] at hacc; cases hacc
  | some res =>
      rw [h, Option.map_some'] at hacc
      injection hacc with hacc2
      simp only [Option.elim]
      exact C3_rejected_step_preserves_y mfW riW3 0 1 res h hacc2

theorem C9_loop_and_index_bounds_witness :
    (riW.targetIter = 0
      ∨ (1 ≤ riW.targetIter ∧ riW.targetIter ≤ sequence_length - 2))
    ∧ ((1 ≤ selectTargetIter mfW riW
        ∧ selectTargetIter mfW riW ≤ sequence_length - 2)
      ∧ (∃ out,
          stepLoopGo mfW riW 0 sequence_length 0 (initialLoopState mfW riW 0 1)
            = some out
          ∧ out.k ≤ selectTargetIter mfW riW + 1)
      ∧ selectTargetIter mfW riW + 1 ≤ sequence_length - 1
      ∧ (∀ res, reb_integrator_bs_step mfW riW 0 1 = some res →
          1 ≤ res.targetIter ∧ res.targetIter ≤ sequence_length - 2)) :=
  ⟨Or.inr (by norm_num [riW, sequence_length, maxOrder]),
   C9_loop_and_index_bounds mfW riW 0 1
     (Or.inr (by norm_num [riW, sequence_length, maxOrder]))⟩

end BS


namespace Mercurana

/-- Model of struct reb_particle: position, velocity, acceleration
triples and the mass. -/
structure Particle where
  x : ℚ
  y : ℚ
  z : ℚ
  vx : ℚ
  vy : ℚ
  vz : ℚ
  ax : ℚ
  ay : ℚ
  az : ℚ
  m : ℚ

/-- Shell-local switching weight of one pair, lines 268-282 of
reb_integrator_mercurana_interaction_step (the same expression recurs in
the passive and jerk loops).  L is the switching function, d the pairwise
distance, dcS s the pairwise critical-distance sum
dcrit[s][mi] + dcrit[s][mj].  dcrit_o is non-NULL exactly when shell > 0
and dcrit_i exactly when shell < Nmaxshells - 1; slot0 marks the scanned
slot 0 of the planet/star exception under whsplitting. -/
def pairLsum (L : ℚ → ℚ → ℚ → ℚ) (d : ℚ) (dcS : ℕ → ℚ) (Nmaxshells : ℕ)
    (whsplitting : Bool) (slot0 : Bool) (shell : ℕ) : ℚ :=
  (if 0 < shell ∧ (whsplitting = false ∨ shell ≠ 1 ∨ slot0 = false) then
    -(L d (dcS shell) (dcS (shell - 1)))
  else 0)
  + (if shell < Nmaxshells - 1 then L d (dcS (shell + 1)) (dcS shell) else 1)

/-- C5: for every pairwise distance d > 0 and fixed dcrit table, the
shell-local weights computed by the interaction kernel sum over the
shells s = 0 .. Nmaxshells-1 to exactly 1, for any switching function L
applied consistently at every level (whsplitting off, so the planet/star
exception never suppresses a term). -/
theorem C5_switching_partition_of_unity (L : ℚ → ℚ → ℚ → ℚ) (d : ℚ)
    (dcS : ℕ → ℚ) (Nmaxshells : ℕ) (slot0 : Bool)
    (hn : 1 ≤ Nmaxshells) (hd : 0 < d) :
    ∑ s in Finset.range Nmaxshells, pairLsum L d dcS Nmaxshells false slot0 s
      = 1 := by
  unfold pairLsum
  rw [Finset.sum_add_distrib]
  obtain ⟨n, rfl⟩ : ∃ n, Nmaxshells = n + 1 := ⟨Nmaxshells - 1, by omega⟩
  have hsub : ∑ s in Finset.range (n + 1),
      (if 0 < s ∧ (false = false ∨ s ≠ 1 ∨ slot0 = false) then
        -(L d (dcS s) (dcS (s - 1))) else 0)
      = ∑ s in Finset.range n, -(L d (dcS (s + 1)) (dcS s)) := by
    rw [Finset.sum_range_succ']
    have h0 : (if 0 < 0 ∧ (false = false ∨ 0 ≠ 1 ∨ slot0 = false) then
        -(L d (dcS 0) (dcS (0 - 1))) else 0) = 0 := by
      simp
    rw [h0, add_zero]
    refine Finset.sum_congr rfl fun s _ => ?_
    rw [if_pos ⟨Nat.succ_pos s, Or.inl rfl⟩]
    simp
  have hadd : ∑ s in Finset.range (n + 1),
      (if s < n + 1 - 1 then L d (dcS (s + 1)) (dcS s) else 1)
      = (∑ s in Finset.range n, L d (dcS (s + 1)) (dcS s)) + 1 := by
    rw [Finset.sum_range_succ]
    have hlast : (if n < n + 1 - 1 then L d (dcS (n + 1)) (dcS n) else 1) = 1 := by
      rw [if_neg (by omega)]
    rw [hlast]
    congr 1
    refine Finset.sum_congr rfl fun s hs => ?_
    rw [Finset.mem_range] at hs
    rw [if_pos (by omega)]
  rw [hsub, hadd]
  rw [Finset.sum_neg_distrib]
  ring

theorem C5_switching_partition_of_unity_witness :
    ((1 : ℕ) ≤ 2 ∧ (0 : ℚ) < 1)
    ∧ ∑ s in Finset.range 2,
        pairLsum (fun a b c => a + b + c) 1 (fun s => (s : ℚ)) 2 false false s
      = 1 :=
  ⟨⟨by norm_num, by norm_num⟩,
   C5_switching_partition_of_unity (fun a b c => a + b + c) 1 (fun s => (s : ℚ))
     2 false (by norm_num) (by norm_num)⟩

/-- Composition scheme selector, enum REB_EOS_TYPE (integrator_eos.h). -/
inductive EosType where
  | LF
  | LF4
  | LF6
  | LF8
  | LF4_2
  | LF8_6_4
  | PMLF4
  | PMLF6
  | PLF7_6_4
deriving DecidableEq

/-- One operation issued by the pre/post-processors at a fixed shell:
a drift with coefficient a, or an interaction with kick coefficient y and
jerk coefficient v. -/
inductive MOp where
  | drift (a : ℚ)
  | interaction (y v : ℚ)
deriving DecidableEq

/-- Coefficient tables of integrator_eos.c (declared extern; their values
are irrelevant to the pre/post-processor symmetry, so they are opaque
parameters). -/
structure EosTables where
  pmlf6_z : ℕ → ℚ
  pmlf6_y : ℕ → ℚ
  pmlf6_v : ℕ → ℚ
  pmlf4_y : ℕ → ℚ
  pmlf4_z : ℕ → ℚ
  plf7_6_4_z : ℕ → ℚ
  plf7_6_4_y : ℕ → ℚ

/-- Trace of drift/interaction calls issued by
reb_integrator_mercurana_preprocessor, lines 459-482. -/
def reb_integrator_mercurana_preprocessor (tb : EosTables) (dt : ℚ) :
    EosType → List MOp
  | .PMLF6 => (List.range 6).flatMap fun i =>
      [MOp.drift (dt * tb.pmlf6_z i),
       MOp.interaction (dt * tb.pmlf6_y i) (dt * dt * dt * tb.pmlf6_v i)]
  | .PMLF4 => (List.range 3).flatMap fun i =>
      [MOp.interaction (dt * tb.pmlf4_y i) 0,
       MOp.drift (dt * tb.pmlf4_z i)]
  | .PLF7_6_4 => (List.range 6).flatMap fun i =>
      [MOp.drift (dt * tb.plf7_6_4_z i),
       MOp.interaction (dt * tb.plf7_6_4_y i) 0]
  | _ => []

/-- Trace of drift/interaction calls issued by
reb_integrator_mercurana_postprocessor, lines 483-506 (loops run i = 5..0
resp. 2..0, each coefficient negated). -/
def reb_integrator_mercurana_postprocessor (tb : EosTables) (dt : ℚ) :
    EosType → List MOp
  | .PMLF6 => (List.range 6).reverse.flatMap fun i =>
      [MOp.interaction (-dt * tb.pmlf6_y i) (-dt * dt * dt * tb.pmlf6_v i),
       MOp.drift (-dt * tb.pmlf6_z i)]
  | .PMLF4 => (List.range 3).reverse.flatMap fun i =>
      [MOp.drift (-dt * tb.pmlf4_z i),
       MOp.interaction (-dt * tb.pmlf4_y i) 0]
  | .PLF7_6_4 => (List.range 6).reverse.flatMap fun i =>
      [MOp.interaction (-dt * tb.plf7_6_4_y i) 0,
       MOp.drift (-dt * tb.plf7_6_4_z i)]
  | _ => []

/-- Coefficient negation of one operation. -/
def negMOp : MOp → MOp
  | .drift a => .drift (-a)
  | .interaction y v => .interaction (-y) (-v)

/-- C8: for PMLF6, PMLF4 and PLF7_6_4 the postprocessor executes exactly
the preprocessor's drift and interaction operations in reverse order with
every coefficient (drift, kick and jerk) negated, and for every other
scheme type both the preprocessor and the postprocessor perform no
operation. -/
theorem C8_postprocessor_reverses_preprocessor (tb : EosTables) (dt : ℚ) :
    (∀ ty, reb_integrator_mercurana_postprocessor tb dt ty
      = ((reb_integrator_mercurana_preprocessor tb dt ty).reverse).map negMOp)
    ∧ reb_integrator_mercurana_preprocessor tb dt .LF = []
    ∧ reb_integrator_mercurana_preprocessor tb dt .LF4 = []
    ∧ reb_integrator_mercurana_preprocessor tb dt .LF6 = []
    ∧ reb_integrator_mercurana_preprocessor tb dt .LF8 = []
    ∧ reb_integrator_mercurana_preprocessor tb dt .LF4_2 = []
    ∧ reb_integrator_mercurana_preprocessor tb dt .LF8_6_4 = [] := by
  refine ⟨fun ty => ?_, rfl, rfl, rfl, rfl, rfl, rfl⟩
  cases ty <;>
    simp [reb_integrator_mercurana_preprocessor,
      reb_integrator_mercurana_postprocessor, negMOp, List.range_succ,
      neg_mul]

/-- reb_mercurana_predict_rmin2, lines 93-119: squared distance at the
start, at the end and (when the closest approach falls inside the step) at
closest approach; returns (rmin2_ab, rmin2_abc).  In C a vanishing
relative velocity or dt produces NaNs whose comparisons are false; over ℚ
the corresponding divisions yield 0, which selects r3 = r1 (for dv = 0) and
thus the same minimum; only dt = 0 exactly can differ, and no claim
depends on that point. -/
def reb_mercurana_predict_rmin2 (p1 p2 : Particle) (dt : ℚ) : ℚ × ℚ :=
  let dts : ℚ := if dt < 0 then -1 else 1
  let dtA := |dt|
  let dx1 := p1.x - p2.x
  let dy1 := p1.y - p2.y
  let dz1 := p1.z - p2.z
  let r1 := dx1 * dx1 + dy1 * dy1 + dz1 * dz1
  let dvx1 := dts * (p1.vx - p2.vx)
  let dvy1 := dts * (p1.vy - p2.vy)
  let dvz1 := dts * (p1.vz - p2.vz)
  let dx2 := dx1 + dtA * dvx1
  let dy2 := dy1 + dtA * dvy1
  let dz2 := dz1 + dtA * dvz1
  let r2 := dx2 * dx2 + dy2 * dy2 + dz2 * dz2
  let t_closest := (dx1 * dvx1 + dy1 * dvy1 + dz1 * dvz1)
    / (dvx1 * dvx1 + dvy1 * dvy1 + dvz1 * dvz1)
  let dx3 := dx1 + t_closest * dvx1
  let dy3 := dy1 + t_closest * dvy1
  let dz3 := dz1 + t_closest * dvz1
  let r3 := dx3 * dx3 + dy3 * dy3 + dz3 * dz3
  let rmin2_ab := min r1 r2
  let rmin2_abc :=
    if 0 ≤ t_closest / dtA ∧ t_closest / dtA ≤ 1 then min rmin2_ab r3
    else rmin2_ab
  (rmin2_ab, rmin2_abc)

/-- State owned by struct reb_simulation_integrator_mercurana together
with the particle array of the simulation.  map[s] is modelled as the list
of its filled entries (read through getD like the C array); jerk is the
slot-indexed scratch array. -/
structure MercState where
  particles : ℕ → Particle
  map : ℕ → List ℕ
  shellN : ℕ → ℕ
  shellN_active : ℕ → ℕ
  inshell : ℕ → ℕ
  dcrit : ℕ → ℕ → ℚ
  Nmaxshells : ℕ
  whsplitting : Bool
  jerk : ℕ → Particle
  n : ℕ

/-- Promotion test of lines 161-164 / 179-182: the predicted minimum
squared distance of the pair is below (dcrit[mi]+dcrit[mj])^2. -/
def closePair (st : MercState) (dt : ℚ) (shell : ℕ) (mi mj : ℕ) : Bool :=
  let pr := reb_mercurana_predict_rmin2 (st.particles mi) (st.particles mj) dt
  let dcritsum := st.dcrit shell mi + st.dcrit shell mj
  decide (pr.2 < dcritsum * dcritsum)

/-- Particle indices stored in map[shell][0 .. shellN[shell]). -/
def shellMembers (st : MercState) (shell : ℕ) : List ℕ :=
  (List.range (st.shellN shell)).map fun i => (st.map shell).getD i 0

/-- Writes inshell[map[i]] = v for every slot i of idxs, as the loops of
lines 130-134 and 141-144 do. -/
def setInshell (M : List ℕ) (v : ℕ) (idxs : List ℕ) (ins : ℕ → ℕ) : ℕ → ℕ :=
  idxs.foldl (fun f i => Function.update f (M.getD i 0) v) ins

/-- Body of the promotion scans (lines 156-173 and 175-189): if the slot's
promotion condition holds, clear inshell[mi] and append mi to the next
shell's map; each slot is scanned once, so each mi is appended at most
once per pass (the break of lines 169/186). -/
def promoteStep (M : List ℕ) (cond : ℕ → Bool) (acc : (ℕ → ℕ) × List ℕ)
    (i : ℕ) : (ℕ → ℕ) × List ℕ :=
  let mi := M.getD i 0
  if cond i then (Function.update acc.1 mi 0, acc.2 ++ [mi]) else acc

/-- Promotion condition of the active pass (lines 156-172): some slot
j < shellN with j /= i is close to slot i. -/
def predictCondA (st : MercState) (dt : ℚ) (shell : ℕ) (i : ℕ) : Bool :=
  (List.range (st.shellN shell)).any fun j =>
    decide (¬ j = i)
      && closePair st dt shell ((st.map shell).getD i 0)
          ((st.map shell).getD j 0)

/-- Promotion condition of the passive pass (lines 175-188): some active
slot j is close to slot i. -/
def predictCondP (st : MercState) (dt : ℚ) (shell : ℕ) (i : ℕ) : Bool :=
  (List.range (st.shellN_active shell)).any fun j =>
    closePair st dt shell ((st.map shell).getD i 0) ((st.map shell).getD j 0)

/-- Default inshell assignment of lines 141-144. -/
def predictInsAllOne (st : MercState) (shell : ℕ) : ℕ → ℕ :=
  setInshell (st.map shell) 1 (List.range (st.shellN shell)) st.inshell

/-- Active promotion pass of lines 156-173, starting from the empty next
shell and the all-ones inshell. -/
def predictActive (st : MercState) (dt : ℚ) (shell : ℕ) : (ℕ → ℕ) × List ℕ :=
  (List.range (st.shellN_active shell)).foldl
    (promoteStep (st.map shell) (predictCondA st dt shell))
    (predictInsAllOne st shell, [])

/-- Passive promotion pass of lines 175-189, continuing the active pass. -/
def predictFull (st : MercState) (dt : ℚ) (shell : ℕ) : (ℕ → ℕ) × List ℕ :=
  (List.range' (st.shellN_active shell)
      (st.shellN shell - st.shellN_active shell)).foldl
    (promoteStep (st.map shell) (predictCondP st dt shell))
    (predictActive st dt shell)

/-- reb_mercurana_encounter_predict, lines 121-190. -/
def reb_mercurana_encounter_predict (st : MercState) (dt : ℚ) (shell : ℕ) :
    MercState :=
  if shell = 0 ∧ st.whsplitting = true then
    -- WH splitting (lines 129-138): clear inshell, forward the population
    { st with
        inshell := setInshell (st.map shell) 0 (List.range (st.shellN shell))
          st.inshell
        map := fun s => if s = shell + 1 then
            (List.range (st.shellN shell)).map
              (fun i => (st.map shell).getD i 0)
          else st.map s
        shellN := Function.update st.shellN (shell + 1) (st.shellN shell)
        shellN_active := Function.update st.shellN_active (shell + 1)
          (st.shellN_active shell) }
  else
    -- put all particles in the current shell by default (lines 141-144)
    if st.Nmaxshells ≤ shell + 1 then
      { st with inshell := predictInsAllOne st shell }
    else
      { st with
          inshell := (predictFull st dt shell).1
          map := fun s => if s = shell + 1 then (predictFull st dt shell).2
            else st.map s
          shellN := Function.update st.shellN (shell + 1)
            (predictFull st dt shell).2.length
          shellN_active := Function.update st.shellN_active (shell + 1)
            (predictActive st dt shell).2.length }

/-- Position update x += a*vx, y += a*vy, z += a*vz of lines 206-208. -/
def driftAdvance (a : ℚ) (p : Particle) : Particle :=
  { p with
      x := p.x + a * p.vx
      y := p.y + a * p.vy
      z := p.z + a * p.vz }

/-- Body of the drift loop (lines 204-209): advance particle map[i] only
when it is in-shell. -/
def driftBody (st : MercState) (a : ℚ) (shell : ℕ) (P : ℕ → Particle)
    (i : ℕ) : ℕ → Particle :=
  let mi := (st.map shell).getD i 0
  if st.inshell mi ≠ 0 then Function.update P mi (driftAdvance a (P mi))
  else P

/-- Position drift of reb_integrator_mercurana_drift_step, lines 203-210:
advance exactly the in-shell particles.  (The sub-shell recursion of
lines 211-222 belongs to the composition scheduler and is separate.) -/
def mercuranaDriftLoop (st : MercState) (a : ℚ) (shell : ℕ) : MercState :=
  { st with particles :=
      (List.range (st.shellN shell)).foldl (driftBody st a shell) st.particles }

/-- Prediction followed by the drift loop, the opening of
reb_integrator_mercurana_drift_step (lines 196-210). -/
def driftStepLocal (st : MercState) (a : ℚ) (shell : ℕ) : MercState :=
  mercuranaDriftLoop (reb_mercurana_encounter_predict st a shell) a shell

theorem promoteScan_spec (M : List ℕ) (cond : ℕ → Bool) :
    ∀ (idxs : List ℕ) (acc : (ℕ → ℕ) × List ℕ),
      (idxs.foldl (promoteStep M cond) acc).2
        = acc.2 ++ (idxs.filter cond).map (fun i => M.getD i 0)
      ∧ ∀ m, (idxs.foldl (promoteStep M cond) acc).1 m
        = if m ∈ (idxs.filter cond).map (fun i => M.getD i 0) then 0
          else acc.1 m := by
  intro idxs
  induction idxs with
  | nil => intro acc; simp
  | cons i idxs ih =>
      intro acc
      rw [List.foldl_cons]
      by_cases hc : cond i
      · have hstep : promoteStep M cond acc i
            = (Function.update acc.1 (M.getD i 0) 0, acc.2 ++ [M.getD i 0]) := by
          unfold promoteStep
          rw [if_pos hc]
        rw [hstep]
        obtain ⟨ih1, ih2⟩ := ih (Function.update acc.1 (M.getD i 0) 0,
          acc.2 ++ [M.getD i 0])
        rw [List.filter_cons_of_pos hc, List.map_cons]
        constructor
        · rw [ih1]
          simp [List.append_assoc]
        · intro m
          rw [ih2 m]
          by_cases h1 : m ∈ (idxs.filter cond).map (fun i => M.getD i 0) <;>
            by_cases h2 : m = M.getD i 0 <;>
            simp only [h1, h2, if_true, if_false, List.mem_cons, true_or,
              or_true, false_or, Function.update_apply, if_pos rfl,
              eq_self_iff_true] <;>
            simp [h1, h2, Function.update_apply]
      · have hstep : promoteStep M cond acc i = acc := by
          unfold promoteStep
          rw [if_neg hc]
        rw [hstep]
        obtain ⟨ih1, ih2⟩ := ih acc
        rw [List.filter_cons_of_neg (by simpa using hc)]
        exact ⟨ih1, ih2⟩

theorem setInshell_spec (M : List ℕ) (v : ℕ) :
    ∀ (idxs : List ℕ) (ins : ℕ → ℕ) (m : ℕ),
      setInshell M v idxs ins m
        = if m ∈ idxs.map (fun i => M.getD i 0) then v else ins m := by
  intro idxs
  induction idxs with
  | nil => intro ins m; simp [setInshell]
  | cons i idxs ih =>
      intro ins m
      unfold setInshell
      rw [List.foldl_cons, List.map_cons]
      have hrec := ih (Function.update ins (M.getD i 0) v) m
      unfold setInshell at hrec
      rw [hrec, Function.update_apply]
      by_cases h1 : m ∈ idxs.map (fun i => M.getD i 0)
      · rw [if_pos h1, if_pos (List.mem_cons_of_mem _ h1)]
      · rw [if_neg h1]
        by_cases h2 : m = M.getD i 0
        · rw [if_pos h2, if_pos (by rw [h2]; exact List.mem_cons_self _ _)]
        · rw [if_neg h2, if_neg (by
            simp only [List.mem_cons, not_or]
            exact ⟨by simpa using h2, by simpa [List.mem_map] using h1⟩)]

theorem shellMembers_getD_inj (st : MercState) (shell : ℕ)
    (hnd : (shellMembers st shell).Nodup) :
    ∀ a b, a < st.shellN shell → b < st.shellN shell →
      (st.map shell).getD a 0 = (st.map shell).getD b 0 → a = b := by
  intro a b ha hb heq
  unfold shellMembers at hnd
  rw [List.nodup_iff_injective_get] at hnd
  have hlen : ((List.range (st.shellN shell)).map
      fun i => (st.map shell).getD i 0).length = st.shellN shell := by
    rw [List.length_map, List.length_range]
  have hA := @hnd ⟨a, by rw [hlen]; exact ha⟩ ⟨b, by rw [hlen]; exact hb⟩
  simp only [List.get_eq_getElem, List.getElem_map, List.getElem_range] at hA
  have := hA heq
  exact congrArg Fin.val this

theorem mem_shellMembers (st : MercState) (shell : ℕ) (i : ℕ)
    (hi : i < st.shellN shell) :
    (st.map shell).getD i 0 ∈ shellMembers st shell := by
  unfold shellMembers
  exact List.mem_map_of_mem _ (List.mem_range.mpr hi)

theorem driftBody_foldl_spec (st : MercState) (a : ℚ) (shell : ℕ) (N : ℕ)
    (hinj : ∀ x y, x < N → y < N →
      (st.map shell).getD x 0 = (st.map shell).getD y 0 → x = y) :
    ∀ (idxs : List ℕ), idxs.Nodup → (∀ x ∈ idxs, x < N) →
      ∀ (P : ℕ → Particle) (m : ℕ),
      (idxs.foldl (driftBody st a shell) P) m
        = if m ∈ idxs.map (fun i => (st.map shell).getD i 0) ∧ st.inshell m ≠ 0
          then driftAdvance a (P m)
          else P m := by
  intro idxs
  induction idxs with
  | nil => intro _ _ P m; simp
  | cons i idxs ih =>
      intro hnd hlt P m
      rw [List.foldl_cons, List.map_cons]
      have hiN : i < N := hlt i (List.mem_cons_self i idxs)
      have hnd2 := hnd.of_cons
      have hlt2 : ∀ x ∈ idxs, x < N := fun x hx => hlt x (List.mem_cons_of_mem i hx)
      by_cases hins : st.inshell ((st.map shell).getD i 0) ≠ 0
      · have hbody : driftBody st a shell P i
            = Function.update P ((st.map shell).getD i 0)
                (driftAdvance a (P ((st.map shell).getD i 0))) := by
          unfold driftBody
          rw [if_pos hins]
        rw [hbody, ih hnd2 hlt2]
        by_cases hm : m = (st.map shell).getD i 0
        · have hnotin : m ∉ idxs.map (fun i => (st.map shell).getD i 0) := by
            intro hmem
            obtain ⟨x, hx, hgx⟩ := List.mem_map.mp hmem
            have hxi := hinj x i (hlt2 x hx) hiN (hgx.trans hm)
            subst hxi
            exact (List.nodup_cons.mp hnd).1 hx
          rw [if_neg (fun hc => hnotin hc.1), hm, Function.update_same,
            if_pos ⟨List.mem_cons_self _ _, hins⟩]
        · rw [Function.update_noteq hm]
          by_cases h2 : m ∈ idxs.map (fun i => (st.map shell).getD i 0)
            ∧ st.inshell m ≠ 0
          · rw [if_pos h2, if_pos ⟨List.mem_cons_of_mem _ h2.1, h2.2⟩]
          · rw [if_neg h2, if_neg (by
              intro hc
              exact h2 ⟨(List.mem_cons.mp hc.1).resolve_left hm, hc.2⟩)]
      · have hbody : driftBody st a shell P i = P := by
          unfold driftBody
          rw [if_neg hins]
        rw [hbody, ih hnd2 hlt2]
        by_cases h2 : m ∈ idxs.map (fun i => (st.map shell).getD i 0)
          ∧ st.inshell m ≠ 0
        · rw [if_pos h2, if_pos ⟨List.mem_cons_of_mem _ h2.1, h2.2⟩]
        · rw [if_neg h2, if_neg (by
            intro hc
            rcases List.mem_cons.mp hc.1 with hm | hm
            · rw [hm] at hc
              exact hins hc.2
            · exact h2 ⟨hm, hc.2⟩)]

theorem mercuranaDriftLoop_spec (st : MercState) (a : ℚ) (shell : ℕ)
    (hinj : ∀ x y, x < st.shellN shell → y < st.shellN shell →
      (st.map shell).getD x 0 = (st.map shell).getD y 0 → x = y) (m : ℕ) :
    (mercuranaDriftLoop st a shell).particles m
      = if m ∈ shellMembers st shell ∧ st.inshell m ≠ 0
        then driftAdvance a (st.particles m)
        else st.particles m := by
  unfold mercuranaDriftLoop shellMembers
  exact driftBody_foldl_spec st a shell (st.shellN shell) hinj
    (List.range (st.shellN shell)) (List.nodup_range _)
    (fun x hx => List.mem_range.mp hx) st.particles m

/-- Slot indices promoted by the two scans of
reb_mercurana_encounter_predict: active slots that pass predictCondA
followed by passive slots that pass predictCondP. -/
def promotedIdx (st : MercState) (dt : ℚ) (shell : ℕ) : List ℕ :=
  (List.range (st.shellN_active shell)).filter (predictCondA st dt shell)
    ++ (List.range' (st.shellN_active shell)
        (st.shellN shell - st.shellN_active shell)).filter
      (predictCondP st dt shell)

theorem predictFull_snd (st : MercState) (dt : ℚ) (shell : ℕ) :
    (predictFull st dt shell).2
      = (promotedIdx st dt shell).map (fun i => (st.map shell).getD i 0) := by
  have hF := (promoteScan_spec (st.map shell) (predictCondP st dt shell)
    (List.range' (st.shellN_active shell)
      (st.shellN shell - st.shellN_active shell))
    (predictActive st dt shell)).1
  have hA := (promoteScan_spec (st.map shell) (predictCondA st dt shell)
    (List.range (st.shellN_active shell))
    (predictInsAllOne st shell, [])).1
  unfold predictFull
  rw [hF]
  unfold predictActive
  rw [hA]
  unfold promotedIdx
  simp [List.map_append]

theorem predictFull_fst (st : MercState) (dt : ℚ) (shell : ℕ) (m : ℕ) :
    (predictFull st dt shell).1 m
      = if m ∈ (promotedIdx st dt shell).map (fun i => (st.map shell).getD i 0)
        then 0
        else if m ∈ shellMembers st shell then 1 else st.inshell m := by
  have hF := (promoteScan_spec (st.map shell) (predictCondP st dt shell)
    (List.range' (st.shellN_active shell)
      (st.shellN shell - st.shellN_active shell))
    (predictActive st dt shell)).2 m
  have hA := (promoteScan_spec (st.map shell) (predictCondA st dt shell)
    (List.range (st.shellN_active shell))
    (predictInsAllOne st shell, [])).2 m
  have hI := setInshell_spec (st.map shell) 1
    (List.range (st.shellN shell)) st.inshell m
  unfold predictFull
  rw [hF]
  show _ = _
  rw [show (predictActive st dt shell).1 m
      = if m ∈ ((List.range (st.shellN_active shell)).filter
            (predictCondA st dt shell)).map (fun i => (st.map shell).getD i 0)
        then 0 else predictInsAllOne st shell m from hA]
  unfold predictInsAllOne
  rw [hI]
  unfold promotedIdx shellMembers
  rw [List.map_append]
  by_cases h2 : m ∈ ((List.range' (st.shellN_active shell)
      (st.shellN shell - st.shellN_active shell)).filter
      (predictCondP st dt shell)).map (fun i => (st.map shell).getD i 0)
  · rw [if_pos h2, if_pos (List.mem_append_right _ h2)]
  · rw [if_neg h2]
    by_cases h1 : m ∈ ((List.range (st.shellN_active shell)).filter
        (predictCondA st dt shell)).map (fun i => (st.map shell).getD i 0)
    · rw [if_pos h1, if_pos (List.mem_append_left _ h1)]
    · rw [if_neg h1, if_neg (fun hc => (List.mem_append.mp hc).elim h1 h2)]

theorem promotedIdx_lt (st : MercState) (dt : ℚ) (shell : ℕ)
    (hNa : st.shellN_active shell ≤ st.shellN shell) :
    ∀ i ∈ promotedIdx st dt shell, i < st.shellN shell := by
  intro i hi
  rcases List.mem_append.mp hi with h | h
  · have := List.mem_range.mp (List.mem_of_mem_filter h)
    omega
  · have := (List.mem_range'_1.mp (List.mem_of_mem_filter h)).2
    omega

theorem promotedIdx_nodup (st : MercState) (dt : ℚ) (shell : ℕ) :
    (promotedIdx st dt shell).Nodup := by
  unfold promotedIdx
  refine ((List.nodup_range _).filter _).append
    ((List.nodup_range' _ _).filter _) ?_
  intro a ha hb
  have h1 := List.mem_range.mp (List.mem_of_mem_filter ha)
  have h2 := (List.mem_range'_1.mp (List.mem_of_mem_filter hb)).1
  omega

theorem predict_preserves_shell_fields (st : MercState) (dt : ℚ) (shell : ℕ) :
    (reb_mercurana_encounter_predict st dt shell).map shell = st.map shell
    ∧ (reb_mercurana_encounter_predict st dt shell).shellN shell
      = st.shellN shell
    ∧ (reb_mercurana_encounter_predict st dt shell).particles
      = st.particles := by
  unfold reb_mercurana_encounter_predict
  split_ifs
  · refine ⟨?_, ?_, rfl⟩
    · dsimp only
      rw [if_neg (show ¬ shell = shell + 1 by omega)]
    · exact Function.update_noteq (by omega) _ _
  · exact ⟨rfl, rfl, rfl⟩
  · refine ⟨?_, ?_, rfl⟩
    · dsimp only
      rw [if_neg (show ¬ shell = shell + 1 by omega)]
    · exact Function.update_noteq (by omega) _ _

theorem predict_shellMembers_eq (st : MercState) (dt : ℚ) (shell : ℕ) :
    shellMembers (reb_mercurana_encounter_predict st dt shell) shell
      = shellMembers st shell := by
  unfold shellMembers
  rw [(predict_preserves_shell_fields st dt shell).1,
    (predict_preserves_shell_fields st dt shell).2.1]

/-- C4 (amended).  After reb_mercurana_encounter_predict runs at shell s
(on a well-formed shell: s+1 below Nmaxshells, no duplicate members,
shellN_active at most shellN), every index stored in map[s+1] also occurs
in map[s], occurs in map[s+1] at most once, and for every member m of
shell s, inshell[m] = 1 iff m was not promoted into map[s+1]; the drift
loop of reb_integrator_mercurana_drift_step then advances the positions of
exactly the members with inshell[m] = 1.  (The original claim's "each
deeper shell is a strict subset of its parent" is false: the subset need
not be strict — see the counterexample — so this theorem states
containment without strictness.) -/
theorem C4_shell_containment (st : MercState) (dt : ℚ) (shell : ℕ)
    (hsub : shell + 1 < st.Nmaxshells)
    (hNa : st.shellN_active shell ≤ st.shellN shell)
    (hnodup : (shellMembers st shell).Nodup) :
    (∀ m ∈ (reb_mercurana_encounter_predict st dt shell).map (shell + 1),
        m ∈ shellMembers st shell)
    ∧ ((reb_mercurana_encounter_predict st dt shell).map (shell + 1)).Nodup
    ∧ (∀ m ∈ shellMembers st shell,
        ((reb_mercurana_encounter_predict st dt shell).inshell m = 1
          ↔ m ∉ (reb_mercurana_encounter_predict st dt shell).map (shell + 1)))
    ∧ (∀ m, (driftStepLocal st dt shell).particles m
        = if m ∈ shellMembers st shell
            ∧ (reb_mercurana_encounter_predict st dt shell).inshell m = 1
          then driftAdvance dt (st.particles m)
          else st.particles m) := by
  have hfields := predict_preserves_shell_fields st dt shell
  have hinjst := shellMembers_getD_inj st shell hnodup
  have hinj2 : ∀ x y,
      x < (reb_mercurana_encounter_predict st dt shell).shellN shell →
      y < (reb_mercurana_encounter_predict st dt shell).shellN shell →
      ((reb_mercurana_encounter_predict st dt shell).map shell).getD x 0
        = ((reb_mercurana_encounter_predict st dt shell).map shell).getD y 0 →
      x = y := by
    rw [hfields.1, hfields.2.1]
    exact hinjst
  have hd := fun m => mercuranaDriftLoop_spec
    (reb_mercurana_encounter_predict st dt shell) dt shell hinj2 m
  by_cases hwh : shell = 0 ∧ st.whsplitting = true
  · have hout : reb_mercurana_encounter_predict st dt shell
        = { st with
            inshell := setInshell (st.map shell) 0
              (List.range (st.shellN shell)) st.inshell
            map := fun s => if s = shell + 1 then
                (List.range (st.shellN shell)).map
                  (fun i => (st.map shell).getD i 0)
              else st.map s
            shellN := Function.update st.shellN (shell + 1) (st.shellN shell)
            shellN_active := Function.update st.shellN_active (shell + 1)
              (st.shellN_active shell) } := by
      unfold reb_mercurana_encounter_predict
      rw [if_pos hwh]
    have hmap : (reb_mercurana_encounter_predict st dt shell).map (shell + 1)
        = shellMembers st shell := by
      rw [hout]
      dsimp only
      rw [if_pos rfl]
      rfl
    have hins : ∀ m ∈ shellMembers st shell,
        (reb_mercurana_encounter_predict st dt shell).inshell m = 0 := by
      intro m hm
      rw [hout]
      show setInshell (st.map shell) 0 (List.range (st.shellN shell))
        st.inshell m = 0
      rw [setInshell_spec]
      exact if_pos hm
    refine ⟨?_, ?_, ?_, ?_⟩
    · rw [hmap]
      exact fun m hm => hm
    · rw [hmap]
      exact hnodup
    · intro m hm
      rw [hins m hm, hmap]
      exact iff_of_false (by omega) (fun hc => hc hm)
    · intro m
      unfold driftStepLocal
      rw [hd m, predict_shellMembers_eq, hfields.2.2]
      by_cases hm : m ∈ shellMembers st shell
      · rw [if_neg (fun hc => hc.2 (hins m hm)), if_neg (fun hc => by
          have h2 := hc.2
          rw [hins m hm] at h2
          exact absurd h2 (by norm_num))]
      · rw [if_neg (fun hc => hm hc.1), if_neg (fun hc => hm hc.1)]
  · have hout : reb_mercurana_encounter_predict st dt shell
        = { st with
            inshell := (predictFull st dt shell).1
            map := fun s => if s = shell + 1 then (predictFull st dt shell).2
              else st.map s
            shellN := Function.update st.shellN (shell + 1)
              (predictFull st dt shell).2.length
            shellN_active := Function.update st.shellN_active (shell + 1)
              (predictActive st dt shell).2.length } := by
      unfold reb_mercurana_encounter_predict
      rw [if_neg hwh, if_neg (by omega)]
    have hmap : (reb_mercurana_encounter_predict st dt shell).map (shell + 1)
        = (promotedIdx st dt shell).map (fun i => (st.map shell).getD i 0) := by
      rw [hout]
      dsimp only
      rw [if_pos rfl, predictFull_snd]
    have hins : ∀ m, (reb_mercurana_encounter_predict st dt shell).inshell m
        = if m ∈ (reb_mercurana_encounter_predict st dt shell).map (shell + 1)
          then 0
          else if m ∈ shellMembers st shell then 1 else st.inshell m := by
      intro m
      rw [hmap]
      rw [hout]
      show (predictFull st dt shell).1 m = _
      rw [predictFull_fst]
    refine ⟨?_, ?_, ?_, ?_⟩
    · intro m hm
      rw [hmap] at hm
      obtain ⟨i, hi, hgi⟩ := List.mem_map.mp hm
      rw [← hgi]
      exact mem_shellMembers st shell i (promotedIdx_lt st dt shell hNa i hi)
    · rw [hmap]
      refine List.Nodup.map_on ?_ (promotedIdx_nodup st dt shell)
      intro x hx y hy hxy
      exact hinjst x y (promotedIdx_lt st dt shell hNa x hx)
        (promotedIdx_lt st dt shell hNa y hy) hxy
    · intro m hm
      rw [hins m]
      by_cases hp :
          m ∈ (reb_mercurana_encounter_predict st dt shell).map (shell + 1)
      · rw [if_pos hp]
        exact iff_of_false (by omega) (fun hc => hc hp)
      · rw [if_neg hp, if_pos hm]
        exact iff_of_true rfl hp
    · intro m
      unfold driftStepLocal
      rw [hd m, predict_shellMembers_eq, hfields.2.2]
      by_cases hm : m ∈ shellMembers st shell
      · by_cases hp :
            m ∈ (reb_mercurana_encounter_predict st dt shell).map (shell + 1)
        · have h0 : (reb_mercurana_encounter_predict st dt shell).inshell m
              = 0 := by
            rw [hins m, if_pos hp]
          rw [if_neg (fun hc => hc.2 h0), if_neg (fun hc => by
            have h2 := hc.2
            rw [h0] at h2
            exact absurd h2 (by norm_num))]
        · have h1 : (reb_mercurana_encounter_predict st dt shell).inshell m
              = 1 := by
            rw [hins m, if_neg hp, if_pos hm]
          rw [if_pos ⟨hm, by rw [h1]; norm_num⟩, if_pos ⟨hm, h1⟩]
      · rw [if_neg (fun hc => hm hc.1), if_neg (fun hc => hm hc.1)]

/-- Two particles one unit apart with unit critical radii: both are
promoted, so the child shell is not a strict subset of its parent. -/
def c4P0 : Particle :=
  { x := 0
    y := 0
    z := 0
    vx := 0
    vy := 0
    vz := 0
    ax := 0
    ay := 0
    az := 0
    m := 1 }

def c4P1 : Particle :=
  { x := 1
    y := 0
    z := 0
    vx := 0
    vy := 1
    vz := 0
    ax := 0
    ay := 0
    az := 0
    m := 1 }

def c4St : MercState :=
  { particles := fun i => if i = 0 then c4P0 else c4P1
    map := fun s => if s = 0 then [0, 1] else []
    shellN := fun s => if s = 0 then 2 else 0
    shellN_active := fun s => if s = 0 then 2 else 0
    inshell := fun _ => 0
    dcrit := fun _ _ => 1
    Nmaxshells := 2
    whsplitting := false
    jerk := fun _ => c4P0
    n := 2 }

/-- C4 counterexample to the original claim.  On a two-particle shell 0
whose members are one unit apart with critical-distance sum 2,
reb_mercurana_encounter_predict promotes both members, so map[1] holds
every member of map[0]: the deeper shell is not a strict subset of its
parent, refuting the claim's strictness clause (the run is inside the
claim's scope: a subshell exists, the members are distinct, and
shellN_active is at most shellN). -/
theorem C4_strict_subset_counterexample :
    0 + 1 < c4St.Nmaxshells
    ∧ (shellMembers c4St 0).Nodup
    ∧ c4St.shellN_active 0 ≤ c4St.shellN 0
    ∧ (reb_mercurana_encounter_predict c4St 1 0).map (0 + 1) = [0, 1]
    ∧ shellMembers c4St 0 = [0, 1]
    ∧ ¬ ∃ m, m ∈ shellMembers c4St 0
        ∧ m ∉ (reb_mercurana_encounter_predict c4St 1 0).map (0 + 1) := by
  have h1 : (reb_mercurana_encounter_predict c4St 1 0).map (0 + 1)
      = [0, 1] := by
    norm_num [reb_mercurana_encounter_predict, predictFull, predictActive,
      predictInsAllOne, predictCondA, predictCondP, promoteStep, setInshell,
      closePair, reb_mercurana_predict_rmin2, c4St, c4P0, c4P1,
      List.range_succ, List.range']
  have h2 : shellMembers c4St 0 = [0, 1] := by
    norm_num [shellMembers, c4St, List.range_succ]
  refine ⟨by norm_num [c4St], by rw [h2]; decide, by norm_num [c4St],
    h1, h2, ?_⟩
  rintro ⟨m, hm, hnot⟩
  rw [h2] at hm
  rw [h1] at hnot
  exact hnot hm

theorem C4_shell_containment_witness :
    (0 + 1 < c4St.Nmaxshells
      ∧ c4St.shellN_active 0 ≤ c4St.shellN 0
      ∧ (shellMembers c4St 0).Nodup)
    ∧ ((∀ m ∈ (reb_mercurana_encounter_predict c4St 1 0).map (0 + 1),
          m ∈ shellMembers c4St 0)
      ∧ ((reb_mercurana_encounter_predict c4St 1 0).map (0 + 1)).Nodup
      ∧ (∀ m ∈ shellMembers c4St 0,
          ((reb_mercurana_encounter_predict c4St 1 0).inshell m = 1
            ↔ m ∉ (reb_mercurana_encounter_predict c4St 1 0).map (0 + 1)))
      ∧ (∀ m, (driftStepLocal c4St 1 0).particles m
          = if m ∈ shellMembers c4St 0
              ∧ (reb_mercurana_encounter_predict c4St 1 0).inshell m = 1
            then driftAdvance 1 (c4St.particles m)
            else c4St.particles m)) :=
  ⟨⟨by norm_num [c4St], by norm_num [c4St], by
      rw [show shellMembers c4St 0 = [0, 1] from by
        norm_num [shellMembers, c4St, List.range_succ]]
      decide⟩,
   C4_shell_containment c4St 1 0 (by norm_num [c4St]) (by norm_num [c4St])
     (by
      rw [show shellMembers c4St 0 = [0, 1] from by
        norm_num [shellMembers, c4St, List.range_succ]]
      decide)⟩

/-- Zeroing of the acceleration fields, as in lines 249-251 (particles)
and 337-339 (jerk slots). -/
def zeroAccel (p : Particle) : Particle :=
  { p with
      ax := 0
      ay := 0
      az := 0 }

/-- starti of lines 253-257: skip slot 0 in shell 0 under WH splitting. -/
def interStarti (st : MercState) (shell : ℕ) : ℕ :=
  if st.whsplitting = true ∧ shell = 0 then 1 else 0

/-- Pair switching weight Lsum of lines 268-282 (and 355-369, 304-318,
405-419): subtract L at the outer boundary when shell > 0 unless the pair
is the planet/star pair of shell 1 under WH splitting (aSlot is the
scanned active slot of the guard), then add L at the inner boundary when a
deeper shell exists, else add 1 at the innermost shell. -/
def interLsum (L : ℚ → ℚ → ℚ → ℚ) (st : MercState) (shell : ℕ)
    (aSlot : ℕ) (dr : ℚ) (mi mj : ℕ) : ℚ :=
  (if 0 < shell ∧ (st.whsplitting = false ∨ shell ≠ 1 ∨ aSlot ≠ 0) then
    -(L dr (st.dcrit shell mi + st.dcrit shell mj)
        (st.dcrit (shell - 1) mi + st.dcrit (shell - 1) mj))
  else 0)
  + (if shell + 1 < st.Nmaxshells then
      L dr (st.dcrit (shell + 1) mi + st.dcrit (shell + 1) mj)
        (st.dcrit shell mi + st.dcrit shell mj)
    else 1)

/-- Pair switching derivative dLdrsum of lines 356-369 / 406-419. -/
def interdLdrsum (dLdr : ℚ → ℚ → ℚ → ℚ) (st : MercState) (shell : ℕ)
    (aSlot : ℕ) (dr : ℚ) (mi mj : ℕ) : ℚ :=
  (if 0 < shell ∧ (st.whsplitting = false ∨ shell ≠ 1 ∨ aSlot ≠ 0) then
    -(dLdr dr (st.dcrit shell mi + st.dcrit shell mj)
        (st.dcrit (shell - 1) mi + st.dcrit (shell - 1) mj))
  else 0)
  + (if shell + 1 < st.Nmaxshells then
      dLdr dr (st.dcrit (shell + 1) mi + st.dcrit (shell + 1) mj)
        (st.dcrit shell mi + st.dcrit shell mj)
    else 0)

/-- Active-active acceleration kick of lines 262-293 with mi = map[aSlot]
and mj the inner-loop particle; sq models sqrt. -/
def accPairUpdate (sq : ℚ → ℚ) (G : ℚ) (L : ℚ → ℚ → ℚ → ℚ)
    (st : MercState) (shell : ℕ) (P : ℕ → Particle) (aSlot : ℕ)
    (mi mj : ℕ) : ℕ → Particle :=
  let dx := (P mi).x - (P mj).x
  let dy := (P mi).y - (P mj).y
  let dz := (P mi).z - (P mj).z
  let dr := sq (dx * dx + dy * dy + dz * dz)
  let Lsum := interLsum L st shell aSlot dr mi mj
  let prefact := G * Lsum / (dr * dr * dr)
  let prefactj := -prefact * (P mj).m
  let prefacti := prefact * (P mi).m
  let P1 := Function.update P mi
    { P mi with
        ax := (P mi).ax + prefactj * dx
        ay := (P mi).ay + prefactj * dy
        az := (P mi).az + prefactj * dz }
  Function.update P1 mj
    { P1 mj with
        ax := (P1 mj).ax + prefacti * dx
        ay := (P1 mj).ay + prefacti * dy
        az := (P1 mj).az + prefacti * dz }

/-- Passive-active acceleration kick of lines 300-330; mi is the passive
particle, mj = map[aSlot] the active one (the guard of line 307 uses the
active slot), and the back-reaction on mj happens only when
testparticle_type is set. -/
def accPassiveUpdate (sq : ℚ → ℚ) (G : ℚ) (L : ℚ → ℚ → ℚ → ℚ)
    (tptype : Bool) (st : MercState) (shell : ℕ) (P : ℕ → Particle)
    (aSlot : ℕ) (mi mj : ℕ) : ℕ → Particle :=
  let dx := (P mi).x - (P mj).x
  let dy := (P mi).y - (P mj).y
  let dz := (P mi).z - (P mj).z
  let dr := sq (dx * dx + dy * dy + dz * dz)
  let Lsum := interLsum L st shell aSlot dr mi mj
  let prefact := G * Lsum / (dr * dr * dr)
  let prefactj := -prefact * (P mj).m
  let P1 := Function.update P mi
    { P mi with
        ax := (P mi).ax + prefactj * dx
        ay := (P mi).ay + prefactj * dy
        az := (P mi).az + prefactj * dz }
  if tptype then
    let prefacti := prefact * (P1 mi).m
    Function.update P1 mj
      { P1 mj with
          ax := (P1 mj).ax + prefacti * dx
          ay := (P1 mj).ay + prefacti * dy
          az := (P1 mj).az + prefacti * dz }
  else P1

/-- Active-active jerk contribution of lines 344-389: reads the final
accelerations from P and writes the slot-indexed jerk array at slots
bSlot (the inner particle) and aSlot, in the order of the source. -/
def jerkPairUpdate (sq : ℚ → ℚ) (G : ℚ) (L dLdr : ℚ → ℚ → ℚ → ℚ)
    (st : MercState) (shell : ℕ) (P : ℕ → Particle) (J : ℕ → Particle)
    (aSlot bSlot : ℕ) (mi mj : ℕ) : ℕ → Particle :=
  let dx := (P mj).x - (P mi).x
  let dy := (P mj).y - (P mi).y
  let dz := (P mj).z - (P mi).z
  let dax := (P mj).ax - (P mi).ax
  let day := (P mj).ay - (P mi).ay
  let daz := (P mj).az - (P mi).az
  let dr := sq (dx * dx + dy * dy + dz * dz)
  let Lsum := interLsum L st shell aSlot dr mi mj
  let dLdrsum := interdLdrsum dLdr st shell aSlot dr mi mj
  let alphasum := dax * dx + day * dy + daz * dz
  let prefact2 := 2 * G / (dr * dr * dr)
  let prefact2i := Lsum * prefact2 * (P mi).m
  let prefact2j := Lsum * prefact2 * (P mj).m
  let J1 := Function.update J bSlot
    { J bSlot with
        ax := (J bSlot).ax - dax * prefact2i
        ay := (J bSlot).ay - day * prefact2i
        az := (J bSlot).az - daz * prefact2i }
  let J2 := Function.update J1 aSlot
    { J1 aSlot with
        ax := (J1 aSlot).ax + dax * prefact2j
        ay := (J1 aSlot).ay + day * prefact2j
        az := (J1 aSlot).az + daz * prefact2j }
  let prefact1 := alphasum * prefact2 / dr * (3 * Lsum / dr - dLdrsum)
  let prefact1i := prefact1 * (P mi).m
  let prefact1j := prefact1 * (P mj).m
  let J3 := Function.update J2 bSlot
    { J2 bSlot with
        ax := (J2 bSlot).ax + dx * prefact1i
        ay := (J2 bSlot).ay + dy * prefact1i
        az := (J2 bSlot).az + dz * prefact1i }
  Function.update J3 aSlot
    { J3 aSlot with
        ax := (J3 aSlot).ax - dx * prefact1j
        ay := (J3 aSlot).ay - dy * prefact1j
        az := (J3 aSlot).az - dz * prefact1j }

/-- Passive-active jerk contribution of lines 394-441: iSlot is the
passive slot (jerk[i]), aSlot the active slot of the guard; the writes to
jerk[aSlot] happen only when testparticle_type is set, in source order. -/
def jerkPassiveUpdate (sq : ℚ → ℚ) (G : ℚ) (L dLdr : ℚ → ℚ → ℚ → ℚ)
    (tptype : Bool) (st : MercState) (shell : ℕ) (P : ℕ → Particle)
    (J : ℕ → Particle) (aSlot iSlot : ℕ) (mi mj : ℕ) : ℕ → Particle :=
  let dx := (P mj).x - (P mi).x
  let dy := (P mj).y - (P mi).y
  let dz := (P mj).z - (P mi).z
  let dax := (P mj).ax - (P mi).ax
  let day := (P mj).ay - (P mi).ay
  let daz := (P mj).az - (P mi).az
  let dr := sq (dx * dx + dy * dy + dz * dz)
  let Lsum := interLsum L st shell aSlot dr mi mj
  let dLdrsum := interdLdrsum dLdr st shell aSlot dr mi mj
  let alphasum := dax * dx + day * dy + daz * dz
  let prefact2 := 2 * G / (dr * dr * dr)
  let prefact2j := Lsum * prefact2 * (P mj).m
  let prefact1 := alphasum * prefact2 / dr * (3 * Lsum / dr - dLdrsum)
  let prefact1j := prefact1 * (P mj).m
  let J1 := Function.update J iSlot
    { J iSlot with
        ax := (J iSlot).ax + dax * prefact2j
        ay := (J iSlot).ay + day * prefact2j
        az := (J iSlot).az + daz * prefact2j }
  let J2 := Function.update J1 iSlot
    { J1 iSlot with
        ax := (J1 iSlot).ax - dx * prefact1j
        ay := (J1 iSlot).ay - dy * prefact1j
        az := (J1 iSlot).az - dz * prefact1j }
  if tptype then
    let prefact1i := prefact1 * (P mi).m
    let prefact2i := Lsum * prefact2 * (P mi).m
    let J3 := Function.update J2 aSlot
      { J2 aSlot with
          ax := (J2 aSlot).ax + dx * prefact1i
          ay := (J2 aSlot).ay + dy * prefact1i
          az := (J2 aSlot).az + dz * prefact1i }
    Function.update J3 aSlot
      { J3 aSlot with
          ax := (J3 aSlot).ax - dax * prefact2i
          ay := (J3 aSlot).ay - day * prefact2i
          az := (J3 aSlot).az - daz * prefact2i }
  else J2

/-- Acceleration zeroing loop of lines 247-252. -/
def accZero (st : MercState) (shell : ℕ) (P : ℕ → Particle) :
    ℕ → Particle :=
  (List.range (st.shellN shell)).foldl
    (fun P i => Function.update P ((st.map shell).getD i 0)
      (zeroAccel (P ((st.map shell).getD i 0)))) P

/-- Active-active acceleration double loop of lines 259-294. -/
def accActivePhase (sq : ℚ → ℚ) (G : ℚ) (L : ℚ → ℚ → ℚ → ℚ)
    (st : MercState) (shell : ℕ) (P : ℕ → Particle) : ℕ → Particle :=
  (List.range' (interStarti st shell)
      (st.shellN_active shell - interStarti st shell)).foldl
    (fun P i =>
      (List.range' (i + 1) (st.shellN_active shell - (i + 1))).foldl
        (fun P j => accPairUpdate sq G L st shell P i
          ((st.map shell).getD i 0) ((st.map shell).getD j 0))
        P)
    P

/-- Passive-active acceleration double loop of lines 295-332. -/
def accPassivePhase (sq : ℚ → ℚ) (G : ℚ) (L : ℚ → ℚ → ℚ → ℚ)
    (tptype : Bool) (st : MercState) (shell : ℕ) (P : ℕ → Particle) :
    ℕ → Particle :=
  (List.range' (st.shellN_active shell)
      (st.shellN shell - st.shellN_active shell)).foldl
    (fun P i =>
      (List.range' (interStarti st shell)
          (st.shellN_active shell - interStarti st shell)).foldl
        (fun P j => accPassiveUpdate sq G L tptype st shell P j
          ((st.map shell).getD i 0) ((st.map shell).getD j 0))
        P)
    P

/-- Jerk zeroing loop of lines 336-340 (slot-indexed). -/
def jerkZero (N : ℕ) (J : ℕ → Particle) : ℕ → Particle :=
  (List.range N).foldl (fun J j => Function.update J j (zeroAccel (J j))) J

/-- Active-active jerk double loop of lines 341-390. -/
def jerkActivePhase (sq : ℚ → ℚ) (G : ℚ) (L dLdr : ℚ → ℚ → ℚ → ℚ)
    (st : MercState) (shell : ℕ) (P : ℕ → Particle) (J : ℕ → Particle) :
    ℕ → Particle :=
  (List.range' (interStarti st shell)
      (st.shellN_active shell - interStarti st shell)).foldl
    (fun J i =>
      (List.range' (i + 1) (st.shellN_active shell - (i + 1))).foldl
        (fun J j => jerkPairUpdate sq G L dLdr st shell P J i j
          ((st.map shell).getD i 0) ((st.map shell).getD j 0))
        J)
    J

/-- Passive-active jerk double loop of lines 391-442. -/
def jerkPassivePhase (sq : ℚ → ℚ) (G : ℚ) (L dLdr : ℚ → ℚ → ℚ → ℚ)
    (tptype : Bool) (st : MercState) (shell : ℕ) (P : ℕ → Particle)
    (J : ℕ → Particle) : ℕ → Particle :=
  (List.range' (st.shellN_active shell)
      (st.shellN shell - st.shellN_active shell)).foldl
    (fun J i =>
      (List.range' (interStarti st shell)
          (st.shellN_active shell - interStarti st shell)).foldl
        (fun J j => jerkPassiveUpdate sq G L dLdr tptype st shell P J j i
          ((st.map shell).getD i 0) ((st.map shell).getD j 0))
        J)
    J

/-- Velocity kick with jerk of lines 445-447. -/
def velUpdate (y v : ℚ) (p jp : Particle) : Particle :=
  { p with
      vx := p.vx + y * p.ax + v * jp.ax
      vy := p.vy + y * p.ay + v * jp.ay
      vz := p.vz + y * p.az + v * jp.az }

/-- Velocity kick without jerk of lines 452-454. -/
def velUpdateNoJerk (y : ℚ) (p : Particle) : Particle :=
  { p with
      vx := p.vx + y * p.ax
      vy := p.vy + y * p.ay
      vz := p.vz + y * p.az }

/-- Velocity loop of lines 443-448. -/
def velPhase (st : MercState) (shell : ℕ) (y v : ℚ) (P : ℕ → Particle)
    (J : ℕ → Particle) : ℕ → Particle :=
  (List.range (st.shellN shell)).foldl
    (fun P i => Function.update P ((st.map shell).getD i 0)
      (velUpdate y v (P ((st.map shell).getD i 0)) (J i))) P

/-- Velocity loop of lines 450-455. -/
def velPhaseNoJerk (st : MercState) (shell : ℕ) (y : ℚ)
    (P : ℕ → Particle) : ℕ → Particle :=
  (List.range (st.shellN shell)).foldl
    (fun P i => Function.update P ((st.map shell).getD i 0)
      (velUpdateNoJerk y (P ((st.map shell).getD i 0)))) P

/-- reb_integrator_mercurana_interaction_step, lines 225-457: zero the
shell accelerations, run the active and passive force loops, then (when
v is nonzero) the jerk loops, and finish with the velocity kick. -/
def reb_integrator_mercurana_interaction_step (sq : ℚ → ℚ) (G : ℚ)
    (L dLdr : ℚ → ℚ → ℚ → ℚ) (tptype : Bool) (st : MercState) (y v : ℚ)
    (shell : ℕ) : MercState :=
  let P2 := accPassivePhase sq G L tptype st shell
    (accActivePhase sq G L st shell (accZero st shell st.particles))
  if v ≠ 0 then
    let J2 := jerkPassivePhase sq G L dLdr tptype st shell P2
      (jerkActivePhase sq G L dLdr st shell P2
        (jerkZero (st.shellN shell) st.jerk))
    { st with
        particles := velPhase st shell y v P2 J2
        jerk := J2 }
  else
    { st with particles := velPhaseNoJerk st shell y P2 }

/-- Mass-weighted velocity (contribution to the shell momentum). -/
def massVel (p : Particle) : ℚ × ℚ × ℚ :=
  (p.m * p.vx, p.m * p.vy, p.m * p.vz)

/-- Mass-weighted acceleration. -/
def massAccel (p : Particle) : ℚ × ℚ × ℚ :=
  (p.m * p.ax, p.m * p.ay, p.m * p.az)

/-- Acceleration components of a slot of the jerk scratch array. -/
def accelVec (p : Particle) : ℚ × ℚ × ℚ :=
  (p.ax, p.ay, p.az)

/-- Total momentum of the particles of one shell. -/
def shellMomentum (st : MercState) (shell : ℕ) : ℚ × ℚ × ℚ :=
  ∑ s ∈ Finset.range (st.shellN shell),
    massVel (st.particles ((st.map shell).getD s 0))

/-- Mass and velocity agree (the fields the force loops never write). -/
def baseEq (p q : Particle) : Prop :=
  p.m = q.m ∧ p.vx = q.vx ∧ p.vy = q.vy ∧ p.vz = q.vz

theorem baseEq_refl (p : Particle) : baseEq p p :=
  ⟨rfl, rfl, rfl, rfl⟩

theorem baseEq_trans {p q r : Particle} (h1 : baseEq p q)
    (h2 : baseEq q r) : baseEq p r :=
  ⟨h1.1.trans h2.1, h1.2.1.trans h2.2.1, h1.2.2.1.trans h2.2.2.1,
    h1.2.2.2.trans h2.2.2.2⟩

theorem massVel_congr {p q : Particle} (h : baseEq p q) :
    massVel p = massVel q := by
  unfold massVel
  rw [h.1, h.2.1, h.2.2.1, h.2.2.2]

theorem foldl_pres {α β : Type} (Inv : α → Prop) (f : α → β → α) :
    ∀ (l : List β) (a : α), (∀ b ∈ l, ∀ x, Inv x → Inv (f x b)) →
      Inv a → Inv (l.foldl f a) := by
  intro l
  induction l with
  | nil => intro a _ ha; exact ha
  | cons b l ih =>
      intro a h ha
      rw [List.foldl_cons]
      exact ih _ (fun c hc x hx => h c (List.mem_cons_of_mem _ hc) x hx)
        (h b (List.mem_cons_self _ _) a ha)

theorem sum_range_congr_off_pair {γ : Type} [AddCommMonoid γ]
    (f g : ℕ → γ) (N a b : ℕ) (ha : a < N) (hb : b < N) (hab : a ≠ b)
    (hoff : ∀ s, s < N → s ≠ a → s ≠ b → f s = g s)
    (hsum : f a + f b = g a + g b) :
    ∑ s ∈ Finset.range N, f s = ∑ s ∈ Finset.range N, g s := by
  have hsub : ({a, b} : Finset ℕ) ⊆ Finset.range N := by
    intro x hx
    rcases Finset.mem_insert.mp hx with h | h
    · exact Finset.mem_range.mpr (h ▸ ha)
    · exact Finset.mem_range.mpr ((Finset.mem_singleton.mp h) ▸ hb)
  have h1 : (∑ s ∈ Finset.range N \ {a, b}, f s)
      + ∑ s ∈ ({a, b} : Finset ℕ), f s = ∑ s ∈ Finset.range N, f s :=
    Finset.sum_sdiff hsub
  have h2 : (∑ s ∈ Finset.range N \ {a, b}, g s)
      + ∑ s ∈ ({a, b} : Finset ℕ), g s = ∑ s ∈ Finset.range N, g s :=
    Finset.sum_sdiff hsub
  rw [← h1, ← h2]
  have h3 : ∑ s ∈ Finset.range N \ {a, b}, f s
      = ∑ s ∈ Finset.range N \ {a, b}, g s := by
    refine Finset.sum_congr rfl (fun x hx => ?_)
    have hx1 := Finset.mem_range.mp (Finset.mem_sdiff.mp hx).1
    have hx2 := (Finset.mem_sdiff.mp hx).2
    simp only [Finset.mem_insert, Finset.mem_singleton, not_or] at hx2
    exact hoff x hx1 hx2.1 hx2.2
  have h4 : ∑ s ∈ ({a, b} : Finset ℕ), f s = f a + f b :=
    Finset.sum_pair hab
  have h5 : ∑ s ∈ ({a, b} : Finset ℕ), g s = g a + g b :=
    Finset.sum_pair hab
  rw [h3, h4, h5, hsum]

theorem keyFold_spec (key : ℕ → ℕ) (upd : Particle → Particle)
    (hid : ∀ p, upd (upd p) = upd p) :
    ∀ (idxs : List ℕ) (P : ℕ → Particle) (q : ℕ),
      (idxs.foldl (fun P i => Function.update P (key i) (upd (P (key i))))
          P) q
        = if q ∈ idxs.map key then upd (P q) else P q := by
  intro idxs
  induction idxs with
  | nil => intro P q; simp
  | cons i idxs ih =>
      intro P q
      rw [List.foldl_cons, List.map_cons,
        ih (Function.update P (key i) (upd (P (key i)))) q,
        Function.update_apply]
      by_cases h1 : q ∈ idxs.map key
      · rw [if_pos h1, if_pos (List.mem_cons_of_mem _ h1)]
        by_cases h2 : q = key i
        · rw [if_pos h2, h2, hid]
        · rw [if_neg h2]
      · rw [if_neg h1]
        by_cases h2 : q = key i
        · rw [if_pos h2, if_pos (by rw [h2]; exact List.mem_cons_self _ _),
            h2]
        · rw [if_neg h2, if_neg (by
            simp only [List.mem_cons, not_or]
            exact ⟨h2, h1⟩)]

theorem slotFold_spec (M : List ℕ) (N : ℕ)
    (hinj : ∀ x y, x < N → y < N → M.getD x 0 = M.getD y 0 → x = y)
    (f : ℕ → Particle → Particle) :
    ∀ (idxs : List ℕ), idxs.Nodup → (∀ x ∈ idxs, x < N) →
      ∀ (P : ℕ → Particle),
      (∀ i ∈ idxs,
        (idxs.foldl (fun P i => Function.update P (M.getD i 0)
            (f i (P (M.getD i 0)))) P) (M.getD i 0)
          = f i (P (M.getD i 0)))
      ∧ ∀ q, q ∉ idxs.map (fun i => M.getD i 0) →
        (idxs.foldl (fun P i => Function.update P (M.getD i 0)
            (f i (P (M.getD i 0)))) P) q = P q := by
  intro idxs
  induction idxs with
  | nil => intro _ _ P; exact ⟨fun i hi => absurd hi (List.not_mem_nil i),
      fun q _ => rfl⟩
  | cons a idxs ih =>
      intro hnd hlt P
      have haN : a < N := hlt a (List.mem_cons_self a idxs)
      have hlt2 : ∀ x ∈ idxs, x < N :=
        fun x hx => hlt x (List.mem_cons_of_mem a hx)
      have ihP := ih hnd.of_cons hlt2
        (Function.update P (M.getD a 0) (f a (P (M.getD a 0))))
      rw [List.foldl_cons]
      constructor
      · intro i hi
        rcases List.mem_cons.mp hi with hia | hin
        · subst hia
          have hnotin : M.getD i 0 ∉ idxs.map (fun j => M.getD j 0) := by
            intro hmem
            obtain ⟨x, hx, hgx⟩ := List.mem_map.mp hmem
            have := hinj x i (hlt2 x hx) haN hgx
            subst this
            exact (List.nodup_cons.mp hnd).1 hx
          rw [ihP.2 (M.getD i 0) hnotin, Function.update_same]
        · rw [ihP.1 i hin, Function.update_noteq (by
            intro heq
            have := hinj i a (hlt2 i hin) haN heq
            subst this
            exact (List.nodup_cons.mp hnd).1 hin)]
      · intro q hq
        simp only [List.map_cons, List.mem_cons, not_or] at hq
        rw [ihP.2 q (by
          intro hmem
          exact hq.2 hmem), Function.update_noteq hq.1]

theorem zeroAccel_idem (p : Particle) : zeroAccel (zeroAccel p) = zeroAccel p :=
  rfl

theorem baseEq_zeroAccel (p : Particle) : baseEq (zeroAccel p) p :=
  ⟨rfl, rfl, rfl, rfl⟩

theorem massAccel_zeroAccel (p : Particle) : massAccel (zeroAccel p) = 0 := by
  unfold massAccel zeroAccel
  simp

theorem accelVec_zeroAccel (p : Particle) : accelVec (zeroAccel p) = 0 := by
  unfold accelVec zeroAccel
  rfl

theorem accPair_base (sq : ℚ → ℚ) (G : ℚ) (L : ℚ → ℚ → ℚ → ℚ)
    (st : MercState) (shell : ℕ) (P : ℕ → Particle) (aSlot mi mj q : ℕ) :
    baseEq (accPairUpdate sq G L st shell P aSlot mi mj q) (P q) := by
  unfold baseEq
  simp only [accPairUpdate, Function.update_apply]
  split_ifs <;> simp_all

theorem accPair_massAccel_sum (sq : ℚ → ℚ) (G : ℚ) (L : ℚ → ℚ → ℚ → ℚ)
    (st : MercState) (shell : ℕ) (P : ℕ → Particle) (aSlot mi mj : ℕ)
    (hne : mi ≠ mj) :
    massAccel (accPairUpdate sq G L st shell P aSlot mi mj mi)
      + massAccel (accPairUpdate sq G L st shell P aSlot mi mj mj)
      = massAccel (P mi) + massAccel (P mj) := by
  simp only [accPairUpdate, massAccel, Function.update_same,
    Function.update_noteq hne, Function.update_noteq (Ne.symm hne)]
  simp only [Prod.mk_add_mk, Prod.mk.injEq]
  refine ⟨?_, ?_, ?_⟩ <;> ring

theorem jerkPair_weighted_sum (sq : ℚ → ℚ) (G : ℚ)
    (L dLdr : ℚ → ℚ → ℚ → ℚ) (st : MercState) (shell : ℕ)
    (P J : ℕ → Particle) (aSlot bSlot mi mj : ℕ) (hne : aSlot ≠ bSlot) :
    (P mi).m • accelVec
        (jerkPairUpdate sq G L dLdr st shell P J aSlot bSlot mi mj aSlot)
      + (P mj).m • accelVec
        (jerkPairUpdate sq G L dLdr st shell P J aSlot bSlot mi mj bSlot)
      = (P mi).m • accelVec (J aSlot) + (P mj).m • accelVec (J bSlot) := by
  simp only [jerkPairUpdate, accelVec, Function.update_same,
    Function.update_noteq hne, Function.update_noteq (Ne.symm hne)]
  simp only [Prod.smul_mk, smul_eq_mul, Prod.mk_add_mk, Prod.mk.injEq]
  refine ⟨?_, ?_, ?_⟩ <;> ring

theorem massVel_velUpdate (y v : ℚ) (p jp : Particle) :
    massVel (velUpdate y v p jp)
      = massVel p + y • massAccel p + v • (p.m • accelVec jp) := by
  simp only [velUpdate, massVel, massAccel, accelVec]
  simp only [Prod.smul_mk, smul_eq_mul, Prod.mk_add_mk, Prod.mk.injEq]
  refine ⟨?_, ?_, ?_⟩ <;> ring

theorem massVel_velUpdateNoJerk (y : ℚ) (p : Particle) :
    massVel (velUpdateNoJerk y p) = massVel p + y • massAccel p := by
  simp only [velUpdateNoJerk, massVel, massAccel]
  simp only [Prod.smul_mk, smul_eq_mul, Prod.mk_add_mk, Prod.mk.injEq]
  refine ⟨?_, ?_, ?_⟩ <;> ring

theorem accPair_apply_other (sq : ℚ → ℚ) (G : ℚ) (L : ℚ → ℚ → ℚ → ℚ)
    (st : MercState) (shell : ℕ) (P : ℕ → Particle) (aSlot mi mj q : ℕ)
    (hqi : q ≠ mi) (hqj : q ≠ mj) :
    accPairUpdate sq G L st shell P aSlot mi mj q = P q := by
  simp only [accPairUpdate]
  rw [Function.update_noteq hqj, Function.update_noteq hqi]

theorem jerkPair_apply_other (sq : ℚ → ℚ) (G : ℚ)
    (L dLdr : ℚ → ℚ → ℚ → ℚ) (st : MercState) (shell : ℕ)
    (P J : ℕ → Particle) (aSlot bSlot mi mj s : ℕ)
    (hsa : s ≠ aSlot) (hsb : s ≠ bSlot) :
    jerkPairUpdate sq G L dLdr st shell P J aSlot bSlot mi mj s = J s := by
  simp only [jerkPairUpdate]
  rw [Function.update_noteq hsa, Function.update_noteq hsb,
    Function.update_noteq hsa, Function.update_noteq hsb]

theorem accZero_apply (st : MercState) (shell : ℕ) (P : ℕ → Particle)
    (q : ℕ) :
    accZero st shell P q
      = if q ∈ shellMembers st shell then zeroAccel (P q) else P q :=
  keyFold_spec (fun i => (st.map shell).getD i 0) zeroAccel zeroAccel_idem
    (List.range (st.shellN shell)) P q

theorem jerkZero_apply (N : ℕ) (J : ℕ → Particle) (q : ℕ) :
    jerkZero N J q = if q < N then zeroAccel (J q) else J q := by
  have h2 : jerkZero N J q
      = if q ∈ (List.range N).map (fun i => i) then zeroAccel (J q)
        else J q :=
    keyFold_spec (fun i => i) zeroAccel zeroAccel_idem (List.range N) J q
  rw [h2]
  by_cases hq : q < N
  · rw [if_pos (by simpa using hq), if_pos hq]
  · rw [if_neg (by simpa using hq), if_neg hq]

theorem accPassivePhase_eq_self (sq : ℚ → ℚ) (G : ℚ)
    (L : ℚ → ℚ → ℚ → ℚ) (tptype : Bool) (st : MercState) (shell : ℕ)
    (hNa : st.shellN_active shell = st.shellN shell) (P : ℕ → Particle) :
    accPassivePhase sq G L tptype st shell P = P := by
  unfold accPassivePhase
  rw [hNa, Nat.sub_self]
  rfl

theorem jerkPassivePhase_eq_self (sq : ℚ → ℚ) (G : ℚ)
    (L dLdr : ℚ → ℚ → ℚ → ℚ) (tptype : Bool) (st : MercState) (shell : ℕ)
    (hNa : st.shellN_active shell = st.shellN shell)
    (P J : ℕ → Particle) :
    jerkPassivePhase sq G L dLdr tptype st shell P J = J := by
  unfold jerkPassivePhase
  rw [hNa, Nat.sub_self]
  rfl

theorem accActivePhase_base (sq : ℚ → ℚ) (G : ℚ) (L : ℚ → ℚ → ℚ → ℚ)
    (st : MercState) (shell : ℕ) (P : ℕ → Particle) (q : ℕ) :
    baseEq (accActivePhase sq G L st shell P q) (P q) := by
  unfold accActivePhase
  refine foldl_pres (fun P' => ∀ r, baseEq (P' r) (P r)) _ _ P ?_
    (fun r => baseEq_refl _) q
  intro i _ x hx
  refine foldl_pres (fun P' => ∀ r, baseEq (P' r) (P r)) _ _ x ?_ hx
  intro j _ x2 hx2 r
  exact baseEq_trans (accPair_base sq G L st shell x2 i _ _ r) (hx2 r)

theorem accActivePhase_massAccel_sum (sq : ℚ → ℚ) (G : ℚ)
    (L : ℚ → ℚ → ℚ → ℚ) (st : MercState) (shell : ℕ)
    (hNa : st.shellN_active shell = st.shellN shell)
    (hinj : ∀ x y, x < st.shellN shell → y < st.shellN shell →
      (st.map shell).getD x 0 = (st.map shell).getD y 0 → x = y)
    (P : ℕ → Particle) :
    ∑ s ∈ Finset.range (st.shellN shell),
        massAccel (accActivePhase sq G L st shell P
          ((st.map shell).getD s 0))
      = ∑ s ∈ Finset.range (st.shellN shell),
        massAccel (P ((st.map shell).getD s 0)) := by
  unfold accActivePhase
  refine foldl_pres (fun P' =>
      ∑ s ∈ Finset.range (st.shellN shell),
        massAccel (P' ((st.map shell).getD s 0))
      = ∑ s ∈ Finset.range (st.shellN shell),
        massAccel (P ((st.map shell).getD s 0))) _ _ P ?_ rfl
  intro i hi x hx
  have hiN : i < st.shellN shell := by
    have := List.mem_range'_1.mp hi
    omega
  refine foldl_pres (fun P' =>
      ∑ s ∈ Finset.range (st.shellN shell),
        massAccel (P' ((st.map shell).getD s 0))
      = ∑ s ∈ Finset.range (st.shellN shell),
        massAccel (P ((st.map shell).getD s 0))) _ _ x ?_ hx
  intro j hj x2 hx2
  have hj2 := List.mem_range'_1.mp hj
  have hjN : j < st.shellN shell := by omega
  have hij : i ≠ j := by omega
  rw [← hx2]
  refine sum_range_congr_off_pair _ _ (st.shellN shell) i j hiN hjN hij
    ?_ ?_
  · intro s hsN hsi hsj
    rw [accPair_apply_other sq G L st shell x2 i _ _ _
      (fun heq => hsi (hinj s i hsN hiN heq))
      (fun heq => hsj (hinj s j hsN hjN heq))]
  · exact accPair_massAccel_sum sq G L st shell x2 i _ _
      (fun heq => hij (hinj i j hiN hjN heq))

theorem jerkActivePhase_weighted_sum (sq : ℚ → ℚ) (G : ℚ)
    (L dLdr : ℚ → ℚ → ℚ → ℚ) (st : MercState) (shell : ℕ)
    (hNa : st.shellN_active shell = st.shellN shell)
    (P J : ℕ → Particle) :
    ∑ s ∈ Finset.range (st.shellN shell),
        (P ((st.map shell).getD s 0)).m
          • accelVec (jerkActivePhase sq G L dLdr st shell P J s)
      = ∑ s ∈ Finset.range (st.shellN shell),
        (P ((st.map shell).getD s 0)).m • accelVec (J s) := by
  unfold jerkActivePhase
  refine foldl_pres (fun J' =>
      ∑ s ∈ Finset.range (st.shellN shell),
        (P ((st.map shell).getD s 0)).m • accelVec (J' s)
      = ∑ s ∈ Finset.range (st.shellN shell),
        (P ((st.map shell).getD s 0)).m • accelVec (J s)) _ _ J ?_ rfl
  intro i hi x hx
  have hiN : i < st.shellN shell := by
    have := List.mem_range'_1.mp hi
    omega
  refine foldl_pres (fun J' =>
      ∑ s ∈ Finset.range (st.shellN shell),
        (P ((st.map shell).getD s 0)).m • accelVec (J' s)
      = ∑ s ∈ Finset.range (st.shellN shell),
        (P ((st.map shell).getD s 0)).m • accelVec (J s)) _ _ x ?_ hx
  intro j hj x2 hx2
  have hj2 := List.mem_range'_1.mp hj
  have hjN : j < st.shellN shell := by omega
  have hij : i ≠ j := by omega
  rw [← hx2]
  refine sum_range_congr_off_pair _ _ (st.shellN shell) i j hiN hjN hij
    ?_ ?_
  · intro s _ hsi hsj
    rw [jerkPair_apply_other sq G L dLdr st shell P x2 i j _ _ s hsi hsj]
  · exact jerkPair_weighted_sum sq G L dLdr st shell P x2 i j _ _ hij

theorem velPhase_massVel_sum (st : MercState) (shell : ℕ)
    (hinj : ∀ x y, x < st.shellN shell → y < st.shellN shell →
      (st.map shell).getD x 0 = (st.map shell).getD y 0 → x = y)
    (y v : ℚ) (P J : ℕ → Particle) :
    ∑ s ∈ Finset.range (st.shellN shell),
        massVel (velPhase st shell y v P J ((st.map shell).getD s 0))
      = (∑ s ∈ Finset.range (st.shellN shell),
          massVel (P ((st.map shell).getD s 0)))
        + y • (∑ s ∈ Finset.range (st.shellN shell),
          massAccel (P ((st.map shell).getD s 0)))
        + v • (∑ s ∈ Finset.range (st.shellN shell),
          (P ((st.map shell).getD s 0)).m • accelVec (J s)) := by
  have hsf := slotFold_spec (st.map shell) (st.shellN shell) hinj
    (fun i p => velUpdate y v p (J i)) (List.range (st.shellN shell))
    (List.nodup_range _) (fun x hx => List.mem_range.mp hx) P
  have hpt : ∀ s ∈ Finset.range (st.shellN shell),
      massVel (velPhase st shell y v P J ((st.map shell).getD s 0))
        = massVel (P ((st.map shell).getD s 0))
          + y • massAccel (P ((st.map shell).getD s 0))
          + v • ((P ((st.map shell).getD s 0)).m • accelVec (J s)) := by
    intro s hs
    have h1 : velPhase st shell y v P J ((st.map shell).getD s 0)
        = velUpdate y v (P ((st.map shell).getD s 0)) (J s) :=
      hsf.1 s (List.mem_range.mpr (Finset.mem_range.mp hs))
    rw [h1, massVel_velUpdate]
  rw [Finset.sum_congr rfl hpt, Finset.sum_add_distrib,
    Finset.sum_add_distrib, ← Finset.smul_sum, ← Finset.smul_sum]

theorem velPhaseNoJerk_massVel_sum (st : MercState) (shell : ℕ)
    (hinj : ∀ x y, x < st.shellN shell → y < st.shellN shell →
      (st.map shell).getD x 0 = (st.map shell).getD y 0 → x = y)
    (y : ℚ) (P : ℕ → Particle) :
    ∑ s ∈ Finset.range (st.shellN shell),
        massVel (velPhaseNoJerk st shell y P ((st.map shell).getD s 0))
      = (∑ s ∈ Finset.range (st.shellN shell),
          massVel (P ((st.map shell).getD s 0)))
        + y • (∑ s ∈ Finset.range (st.shellN shell),
          massAccel (P ((st.map shell).getD s 0))) := by
  have hsf := slotFold_spec (st.map shell) (st.shellN shell) hinj
    (fun _ p => velUpdateNoJerk y p) (List.range (st.shellN shell))
    (List.nodup_range _) (fun x hx => List.mem_range.mp hx) P
  have hpt : ∀ s ∈ Finset.range (st.shellN shell),
      massVel (velPhaseNoJerk st shell y P ((st.map shell).getD s 0))
        = massVel (P ((st.map shell).getD s 0))
          + y • massAccel (P ((st.map shell).getD s 0)) := by
    intro s hs
    have h1 : velPhaseNoJerk st shell y P ((st.map shell).getD s 0)
        = velUpdateNoJerk y (P ((st.map shell).getD s 0)) :=
      hsf.1 s (List.mem_range.mpr (Finset.mem_range.mp hs))
    rw [h1, massVel_velUpdateNoJerk]
  rw [Finset.sum_congr rfl hpt, Finset.sum_add_distrib, ← Finset.smul_sum]

theorem interaction_step_momentum (sq : ℚ → ℚ) (G : ℚ)
    (L dLdr : ℚ → ℚ → ℚ → ℚ) (tptype : Bool) (st : MercState) (y v : ℚ)
    (shell : ℕ)
    (hNa : st.shellN_active shell = st.shellN shell)
    (hnodup : (shellMembers st shell).Nodup) :
    shellMomentum
        (reb_integrator_mercurana_interaction_step sq G L dLdr tptype st
          y v shell) shell
      = shellMomentum st shell := by
  have hinj := shellMembers_getD_inj st shell hnodup
  have hP2 := accPassivePhase_eq_self sq G L tptype st shell hNa
    (accActivePhase sq G L st shell (accZero st shell st.particles))
  have hbase : ∀ q, baseEq
      (accActivePhase sq G L st shell (accZero st shell st.particles) q)
      (st.particles q) := by
    intro q
    refine baseEq_trans (accActivePhase_base sq G L st shell
      (accZero st shell st.particles) q) ?_
    rw [accZero_apply]
    split_ifs
    · exact baseEq_zeroAccel _
    · exact baseEq_refl _
  have hacc0 : ∑ s ∈ Finset.range (st.shellN shell),
      massAccel (accActivePhase sq G L st shell
        (accZero st shell st.particles) ((st.map shell).getD s 0)) = 0 := by
    rw [accActivePhase_massAccel_sum sq G L st shell hNa hinj]
    refine Finset.sum_eq_zero (fun s hs => ?_)
    rw [accZero_apply,
      if_pos (mem_shellMembers st shell s (Finset.mem_range.mp hs)),
      massAccel_zeroAccel]
  have hbasesum : ∑ s ∈ Finset.range (st.shellN shell),
      massVel (accActivePhase sq G L st shell
        (accZero st shell st.particles) ((st.map shell).getD s 0))
      = shellMomentum st shell :=
    Finset.sum_congr rfl (fun s _ => massVel_congr (hbase _))
  simp only [reb_integrator_mercurana_interaction_step]
  by_cases hv : v ≠ 0
  · rw [if_pos hv, hP2,
      jerkPassivePhase_eq_self sq G L dLdr tptype st shell hNa]
    unfold shellMomentum
    dsimp only
    rw [velPhase_massVel_sum st shell hinj y v
      (accActivePhase sq G L st shell (accZero st shell st.particles))
      (jerkActivePhase sq G L dLdr st shell
        (accActivePhase sq G L st shell (accZero st shell st.particles))
        (jerkZero (st.shellN shell) st.jerk))]
    rw [hacc0, smul_zero, add_zero,
      jerkActivePhase_weighted_sum sq G L dLdr st shell hNa]
    have hjerk0 : ∑ s ∈ Finset.range (st.shellN shell),
        (accActivePhase sq G L st shell (accZero st shell st.particles)
            ((st.map shell).getD s 0)).m
          • accelVec (jerkZero (st.shellN shell) st.jerk s) = 0 := by
      refine Finset.sum_eq_zero (fun s hs => ?_)
      rw [jerkZero_apply, if_pos (Finset.mem_range.mp hs),
        accelVec_zeroAccel, smul_zero]
    rw [hjerk0, smul_zero, add_zero, hbasesum]
    rfl
  · rw [if_neg hv, hP2]
    unfold shellMomentum
    dsimp only
    rw [velPhaseNoJerk_massVel_sum st shell hinj y
      (accActivePhase sq G L st shell (accZero st shell st.particles))]
    rw [hacc0, smul_zero, add_zero, hbasesum]
    rfl

/-- C10.  For a shell in which every particle is active
(shellN = shellN_active, with distinct members) and starti = 0 (shell > 0
or WH splitting disabled), every pairwise acceleration kick of
reb_integrator_mercurana_interaction_step preserves the mass-weighted sum
m_i*a_i + m_j*a_j of the pair, every pairwise jerk contribution likewise
preserves the mass-weighted sum over its two slots, and the velocity
update v += y*a + v*jerk leaves the total momentum of the shell exactly
unchanged in exact arithmetic. -/
theorem C10_interaction_step_momentum_conserved (sq : ℚ → ℚ) (G : ℚ)
    (L dLdr : ℚ → ℚ → ℚ → ℚ) (tptype : Bool) (st : MercState) (y v : ℚ)
    (shell : ℕ)
    (hNa : st.shellN_active shell = st.shellN shell)
    (hwh : ¬(st.whsplitting = true ∧ shell = 0))
    (hnodup : (shellMembers st shell).Nodup) :
    interStarti st shell = 0
    ∧ (∀ (P : ℕ → Particle) (aSlot mi mj : ℕ), mi ≠ mj →
        massAccel (accPairUpdate sq G L st shell P aSlot mi mj mi)
          + massAccel (accPairUpdate sq G L st shell P aSlot mi mj mj)
          = massAccel (P mi) + massAccel (P mj))
    ∧ (∀ (P J : ℕ → Particle) (aSlot bSlot mi mj : ℕ), aSlot ≠ bSlot →
        (P mi).m • accelVec
            (jerkPairUpdate sq G L dLdr st shell P J aSlot bSlot mi mj
              aSlot)
          + (P mj).m • accelVec
            (jerkPairUpdate sq G L dLdr st shell P J aSlot bSlot mi mj
              bSlot)
          = (P mi).m • accelVec (J aSlot)
            + (P mj).m • accelVec (J bSlot))
    ∧ shellMomentum
        (reb_integrator_mercurana_interaction_step sq G L dLdr tptype st
          y v shell) shell
      = shellMomentum st shell := by
  refine ⟨?_, ?_, ?_, ?_⟩
  · unfold interStarti
    rw [if_neg hwh]
  · intro P aSlot mi mj hne
    exact accPair_massAccel_sum sq G L st shell P aSlot mi mj hne
  · intro P J aSlot bSlot mi mj hne
    exact jerkPair_weighted_sum sq G L dLdr st shell P J aSlot bSlot
      mi mj hne
  · exact interaction_step_momentum sq G L dLdr tptype st y v shell hNa
      hnodup

theorem C10_interaction_step_momentum_conserved_witness :
    (c4St.shellN_active 0 = c4St.shellN 0
      ∧ ¬(c4St.whsplitting = true ∧ 0 = 0)
      ∧ (shellMembers c4St 0).Nodup)
    ∧ (interStarti c4St 0 = 0
      ∧ (∀ (P : ℕ → Particle) (aSlot mi mj : ℕ), mi ≠ mj →
          massAccel (accPairUpdate (fun q => q) 1 (fun _ _ _ => 0) c4St 0
              P aSlot mi mj mi)
            + massAccel (accPairUpdate (fun q => q) 1 (fun _ _ _ => 0)
              c4St 0 P aSlot mi mj mj)
            = massAccel (P mi) + massAccel (P mj))
      ∧ (∀ (P J : ℕ → Particle) (aSlot bSlot mi mj : ℕ), aSlot ≠ bSlot →
          (P mi).m • accelVec
              (jerkPairUpdate (fun q => q) 1 (fun _ _ _ => 0)
                (fun _ _ _ => 0) c4St 0 P J aSlot bSlot mi mj aSlot)
            + (P mj).m • accelVec
              (jerkPairUpdate (fun q => q) 1 (fun _ _ _ => 0)
                (fun _ _ _ => 0) c4St 0 P J aSlot bSlot mi mj bSlot)
            = (P mi).m • accelVec (J aSlot)
              + (P mj).m • accelVec (J bSlot))
      ∧ shellMomentum
          (reb_integrator_mercurana_interaction_step (fun q => q) 1
            (fun _ _ _ => 0) (fun _ _ _ => 0) false c4St 1 1 0) 0
        = shellMomentum c4St 0) :=
  ⟨⟨by norm_num [c4St], by simp [c4St], by
      rw [show shellMembers c4St 0 = [0, 1] from by
        norm_num [shellMembers, c4St, List.range_succ]]
      decide⟩,
   C10_interaction_step_momentum_conserved (fun q => q) 1
     (fun _ _ _ => 0) (fun _ _ _ => 0) false c4St 1 1 0
     (by norm_num [c4St]) (by simp [c4St]) (by
      rw [show shellMembers c4St 0 = [0, 1] from by
        norm_num [shellMembers, c4St, List.range_succ]]
      decide)⟩

end Mercurana
